import Mathlib

/-!
Verification of the clip-extraction worker (handler.py and utils.py): a shallow
embedding of the manifest normalization, timecode parsing, filename and storage
key construction, and the invocation handler, together with theorems settling
the specification's claims about them.

Machine reals of the source are modelled as exact rationals; the JSON values a
manifest entry may carry are modelled by `PyVal` (number or string) with Python
truthiness.
-/

deriving instance DecidableEq for Except

/-! ### Characters and decimal digits -/

/-- Decimal digit test, `[0-9]`. -/
def isDigitCh (c : Char) : Bool := '0' ≤ c && c ≤ '9'

/-- Numeric value of a decimal digit character. -/
def charVal (c : Char) : Nat := c.toNat - 48

/-- The decimal digit character for `d < 10`. -/
def digitCh (d : Nat) : Char := Char.ofNat (48 + d)

/-- Little-endian digit expansion of a positive number, driven by fuel;
`fuel = n` always suffices. -/
def digitsAux : Nat → Nat → List Char
  | _, 0 => []
  | 0, _ + 1 => []
  | fuel + 1, n + 1 => digitCh ((n + 1) % 10) :: digitsAux fuel ((n + 1) / 10)

/-- Decimal representation of a natural number, most significant digit first,
as Python's `str`/`repr` of a nonnegative int produces it. -/
def natReprL (n : Nat) : List Char :=
  if n = 0 then ['0'] else (digitsAux n n).reverse

/-- Python `f"{n:03d}"`: decimal representation left-padded with zeros to
width 3. -/
def pad3L (n : Nat) : List Char :=
  List.replicate (3 - (natReprL n).length) '0' ++ natReprL n

/-- String form of `pad3L`. -/
def pad3S (n : Nat) : String := String.mk (pad3L n)

/-- Value of a little-endian digit list. -/
def valLE : List Char → Nat
  | [] => 0
  | c :: cs => charVal c + 10 * valLE cs

/-- Value of a big-endian digit list. -/
def valBE (l : List Char) : Nat := valLE l.reverse

/-- Python whitespace characters stripped by `str.strip()`. -/
def wsChar (c : Char) : Bool :=
  c = ' ' || c = '\t' || c = '\n' || c = '\r' || c = Char.ofNat 11 || c = Char.ofNat 12

/-- Drop the longest suffix of elements satisfying `p`. -/
def dropEnd (p : Char → Bool) (l : List Char) : List Char :=
  (l.reverse.dropWhile p).reverse

/-- Python `str.strip()` on a character list. -/
def pyStripL (l : List Char) : List Char :=
  dropEnd wsChar (l.dropWhile wsChar)

/-- Python `str.strip()` on a string. -/
def pyStripS (s : String) : String := String.mk (pyStripL s.data)

/-! ### Python values and truthiness -/

/-- A JSON scalar as it reaches the Python code: number or string. -/
inductive PyVal where
  | num (q : ℚ)
  | str (s : String)
deriving DecidableEq

/-- Python truthiness of a scalar: `0` and `""` are falsy. -/
def truthyV : PyVal → Bool
  | .num q => q ≠ 0
  | .str s => s ≠ ""

/-- Python truthiness of an optional scalar (`None` is falsy). -/
def truthyO : Option PyVal → Bool
  | none => false
  | some v => truthyV v

/-- Python `a or b` on optional scalars: `a` if truthy, else `b`. -/
def pyOr (a b : Option PyVal) : Option PyVal :=
  if truthyO a then a else b

/-- Python truthiness of an optional string. -/
def truthyS : Option String → Bool
  | none => false
  | some s => s ≠ ""

/-- Python `a or b` on optional strings. -/
def pyOrS (a b : Option String) : Option String :=
  if truthyS a then a else b

/-! ### Plain-number strings and `float()` -/

/-- Python `s.replace('.', '', 1)`: remove the first dot, if any. -/
def removeFirstDot : List Char → List Char
  | [] => []
  | c :: cs => if c = '.' then cs else c :: removeFirstDot cs

/-- Python `s.isdigit()` for ASCII: nonempty and all decimal digits. -/
def isdigitL (l : List Char) : Bool := !l.isEmpty && l.all isDigitCh

/-- The guard `s.replace('.', '', 1).isdigit()` from `utils.parse_timecode`:
`s` is a plain nonnegative decimal number with at most one dot. -/
def isPlainNumL (l : List Char) : Bool := isdigitL (removeFirstDot l)

/-- Split at the first dot: integer part, and the fractional part when a dot
is present. -/
def splitDot : List Char → List Char × Option (List Char)
  | [] => ([], none)
  | c :: cs =>
      if c = '.' then ([], some cs)
      else
        let r := splitDot cs
        (c :: r.1, r.2)

/-- Exact value of a nonnegative decimal string accepted by `float()`
(digits with at most one dot). -/
def plainValL (l : List Char) : ℚ :=
  match splitDot l with
  | (ip, none) => (valBE ip : ℚ)
  | (ip, some fp) => (valBE ip : ℚ) + (valBE fp : ℚ) / 10 ^ fp.length

/-- Body accepted by Python `float()` after sign removal, restricted to the
plain decimal forms this program feeds it. -/
def floatBodyOK (l : List Char) : Bool := isPlainNumL l

/-- Python `float(s)` on a string, restricted to plain signed decimals;
anything else raises `ValueError`. -/
def pyFloatL (l : List Char) : Except String ℚ :=
  let t := pyStripL l
  match t with
  | '-' :: r =>
      if floatBodyOK r then .ok (-(plainValL r))
      else .error ("could not convert string to float: '" ++ String.mk l ++ "'")
  | '+' :: r =>
      if floatBodyOK r then .ok (plainValL r)
      else .error ("could not convert string to float: '" ++ String.mk l ++ "'")
  | r =>
      if floatBodyOK r then .ok (plainValL r)
      else .error ("could not convert string to float: '" ++ String.mk l ++ "'")

/-- Python `float(v)` on a scalar: numbers pass through, strings are parsed. -/
def pyFloatV : PyVal → Except String ℚ
  | .num q => .ok q
  | .str s => pyFloatL s.data

/-! ### The timecode regex `^(?:(\d+):)?([0-5]?\d):([0-5]?\d(?:\.\d+)?)$`

No character class of the pattern admits a colon, and the pattern is anchored,
so a string matches exactly when its colon-split has two or three parts whose
shapes match the groups. -/

/-- Split a character list on `':'` (Python-style `split(":")`). -/
def splitOnColon (l : List Char) : List (List Char) :=
  l.foldr
    (fun c acc =>
      if c = ':' then [] :: acc
      else
        match acc with
        | a :: rest => (c :: a) :: rest
        | [] => [[c]])
    [[]]

/-- The hour group `\d+`: one or more digits. -/
def hOK (l : List Char) : Bool := !l.isEmpty && l.all isDigitCh

/-- The minute group `[0-5]?\d`: one digit, or two digits whose first is 0-5. -/
def mmOK : List Char → Bool
  | [d] => isDigitCh d
  | [d1, d2] => ('0' ≤ d1 && d1 ≤ '5') && isDigitCh d2
  | _ => false

/-- The second group `[0-5]?\d(?:\.\d+)?`, returning its `float` value. -/
def ssParse (l : List Char) : Option ℚ :=
  match splitDot l with
  | (ip, none) => if mmOK ip then some (valBE ip : ℚ) else none
  | (ip, some fp) =>
      if mmOK ip && (!fp.isEmpty && fp.all isDigitCh) then
        some ((valBE ip : ℚ) + (valBE fp : ℚ) / 10 ^ fp.length)
      else none

/-- Match of `TIME_RE` against a whole string, with the source's value
computation `h*3600 + mnt*60 + sec`. -/
def timeMatch (l : List Char) : Option ℚ :=
  match splitOnColon l with
  | [mp, sp] =>
      if mmOK mp then (ssParse sp).map (fun sq => (valBE mp : ℚ) * 60 + sq)
      else none
  | [hp, mp, sp] =>
      if hOK hp && mmOK mp then
        (ssParse sp).map (fun sq => (valBE hp : ℚ) * 3600 + (valBE mp : ℚ) * 60 + sq)
      else none
  | _ => none

/-- `utils.parse_timecode`: numbers cast to float; strings parsed as plain
seconds or `[hh:]mm:ss[.ms]`; everything else (including `None`) raises. -/
def parse_timecode : Option PyVal → Except String ℚ
  | some (.num q) => .ok q
  | some (.str t) =>
      let s := pyStripL t.data
      if isPlainNumL s then .ok (plainValL s)
      else
        match timeMatch s with
        | some q => .ok q
        | none => .error ("Unrecognized time format: " ++ t)
  | none => .error "Unrecognized time format: None"

/-! ### Manifest data model -/

/-- One raw manifest entry, with every key the two loaders probe.
Time-valued keys hold scalars; label-valued keys hold strings. -/
structure RawClip where
  start : Option PyVal := none
  start_s : Option PyVal := none
  from_ : Option PyVal := none
  end_ : Option PyVal := none
  end_s : Option PyVal := none
  to_ : Option PyVal := none
  duration : Option PyVal := none
  title : Option String := none
  label : Option String := none
  text : Option String := none
  id : Option String := none
  quote : Option String := none
deriving DecidableEq

/-- The parsed JSON top level of a clips manifest: an array, an object with a
`clips` array, or some other shape (a bare string, or any other value). -/
inductive Manifest where
  | arr (cs : List RawClip)
  | objClips (cs : List RawClip)
  | jstr (s : String)
  | other
deriving DecidableEq

/-- Top-level shape normalization of `handler.load_clips_config`
(lines 84-89): accept an array or an object with a `clips` key. -/
def extractClips : Manifest → Except String (List RawClip)
  | .objClips cs => .ok cs
  | .arr cs => .ok cs
  | _ => .error "clips.json must be a list or an object with a 'clips' key"

/-- Top-level shape normalization of `utils.load_clips_from_json`
(lines 43-48); same shapes, different message. -/
def extractClipsU : Manifest → Except String (List RawClip)
  | .objClips cs => .ok cs
  | .arr cs => .ok cs
  | _ => .error "clips JSON must be a list or have a 'clips' key."

/-- A normalized window of `handler.load_clips_config`. -/
structure ItemH where
  idx : Nat
  title : String
  start : ℚ
  end_ : ℚ
deriving DecidableEq

/-- The title fallback chain of `handler.load_clips_config` line 102:
`c.get("title") or c.get("label") or (c.get("text") or f"clip{idx:03d}")`. -/
def getTitle (idx : Nat) (c : RawClip) : String :=
  match pyOrS (pyOrS c.title c.label) (pyOrS c.text (some ("clip" ++ pad3S idx))) with
  | some t => t
  | none => ""

/-- `start_s = c.get("start") or c.get("start_s") or c.get("from")`
(handler line 93). -/
def startAlias (c : RawClip) : Option PyVal := pyOr (pyOr c.start c.start_s) c.from_

/-- `end_s = c.get("end") or c.get("end_s") or c.get("to")` (handler line 94). -/
def endAlias (c : RawClip) : Option PyVal := pyOr (pyOr c.end_ c.end_s) c.to_

/-- Handler lines 95-99: when start or end is unresolved, fall back on
`end = float(start) + float(duration)` if both start and duration are
present (either `float()` may raise). -/
def endResolved (c : RawClip) : Except String (Option PyVal) :=
  if (startAlias c).isNone || (endAlias c).isNone then
    match startAlias c, c.duration with
    | some sv, some dv =>
        match pyFloatV sv with
        | .error er => .error er
        | .ok a =>
            match pyFloatV dv with
            | .error er => .error er
            | .ok b => .ok (some (.num (a + b)))
    | _, _ => .ok (endAlias c)
  else .ok (endAlias c)

/-- Normalization of one entry by `handler.load_clips_config` (lines 92-103):
truthiness-based alias resolution, `end = start + duration` fallback, silent
drop (`none`) when start or end stays unresolved, and `float()` coercion
(which can raise). -/
def normEntryH (idx : Nat) (c : RawClip) : Except String (Option ItemH) :=
  match endResolved c with
  | .error er => .error er
  | .ok e =>
      match startAlias c, e with
      | some sv, some ev =>
          match pyFloatV sv with
          | .error er => .error er
          | .ok sq =>
              match pyFloatV ev with
              | .error er => .error er
              | .ok eq =>
                  .ok (some { idx := idx, title := getTitle idx c, start := sq, end_ := eq })
      | _, _ => .ok none

/-- The enumerated normalization loop of `handler.load_clips_config`,
starting at index `idx`. -/
def normAuxH (idx : Nat) : List RawClip → Except String (List ItemH)
  | [] => .ok []
  | c :: cs =>
      match normEntryH idx c with
      | .error er => .error er
      | .ok it? =>
          match normAuxH (idx + 1) cs with
          | .error er => .error er
          | .ok rest =>
              match it? with
              | some it => .ok (it :: rest)
              | none => .ok rest

/-- `handler.load_clips_config` after the manifest bytes are fetched and
parsed: shape check, per-entry normalization, and the empty-result failure
(lines 83-106). -/
def load_clips_config_parse (m : Manifest) : Except String (List ItemH) :=
  match extractClips m with
  | .error er => .error er
  | .ok cs =>
      match normAuxH 1 cs with
      | .error er => .error er
      | .ok norm =>
          if norm = [] then .error "No valid clips found in clips.json" else .ok norm

/-- A normalized clip of `utils.load_clips_from_json`. -/
structure ItemU where
  id : String
  start : ℚ
  end_ : ℚ
  quote : String
deriving DecidableEq

/-- The enumerated loop of `utils.load_clips_from_json` (lines 50-65): parse
start, optional end and duration, hard-fail when both end and duration are
absent, clamp to nonnegative. -/
def utilsGo (idx : Nat) : List RawClip → Except String (List ItemU)
  | [] => .ok []
  | c :: rest =>
      match parse_timecode c.start with
      | .error er => .error er
      | .ok start =>
          match (match c.end_ with
                 | some v => (parse_timecode (some v)).map some
                 | none => .ok (none : Option ℚ)) with
          | .error er => .error er
          | .ok endv =>
              match (match c.duration with
                     | some v => (parse_timecode (some v)).map some
                     | none => .ok (none : Option ℚ)) with
              | .error er => .error er
              | .ok durv =>
                  match endv, durv with
                  | none, none => .error "Each clip needs either 'end' or 'duration'."
                  | _, _ =>
                      let e := match endv with
                        | some x => x
                        | none => start + durv.getD 0
                      let clip_id :=
                        match pyOrS c.id (some ("clip" ++ pad3S idx)) with
                        | some t => t
                        | none => ""
                      match utilsGo (idx + 1) rest with
                      | .error er => .error er
                      | .ok restItems =>
                          .ok ({ id := clip_id, start := max 0 start, end_ := max 0 e,
                                 quote := c.quote.getD "" } :: restItems)

/-- `utils.load_clips_from_json` (lines 36-66): shape check then the strict
per-entry loop. -/
def load_clips_from_json (m : Manifest) : Except String (List ItemU) :=
  match extractClipsU m with
  | .error er => .error er
  | .ok cs => utilsGo 1 cs

/-! ### `handler.slugify` -/

/-- Character class kept by the first substitution, `[a-zA-Z0-9\-_.]`. -/
def isSafeCh (c : Char) : Bool :=
  ('a' ≤ c && c ≤ 'z') || ('A' ≤ c && c ≤ 'Z') || ('0' ≤ c && c ≤ '9') ||
    c = '-' || c = '_' || c = '.'

/-- `re.sub(r"[^a-zA-Z0-9\-_.]+", "-", ·)`: each maximal run of characters
outside the class becomes a single hyphen. The flag records whether the
previous character was part of such a run. -/
def sub1Aux : Bool → List Char → List Char
  | _, [] => []
  | prevBad, c :: cs =>
      if isSafeCh c then c :: sub1Aux false cs
      else if prevBad then sub1Aux true cs
      else '-' :: sub1Aux true cs

/-- `re.sub(r"-{2,}", "-", ·)`: collapse each run of two or more hyphens to
one. The flag records whether the previous character was a hyphen. -/
def collapseAux : Bool → List Char → List Char
  | _, [] => []
  | prevHy, c :: cs =>
      if c = '-' then
        if prevHy then collapseAux true cs else '-' :: collapseAux true cs
      else c :: collapseAux false cs

/-- `str.strip("-")`: drop hyphens from both ends. -/
def stripHyphens (l : List Char) : List Char :=
  dropEnd (fun c => c = '-') (l.dropWhile (fun c => c = '-'))

/-- ASCII lowering as Python `str.lower()` performs it on ASCII text. -/
def asciiLower (c : Char) : Char :=
  if 'A' ≤ c && c ≤ 'Z' then Char.ofNat (c.toNat + 32) else c

/-- The first three steps of `handler.slugify`: whitespace strip, the two
regex substitutions, and the hyphen strip. -/
def slugifyCore (l : List Char) : List Char :=
  stripHyphens (collapseAux false (sub1Aux false (pyStripL l)))

/-- `handler.slugify` (lines 38-41) on a character list, with the default
`maxlen = 40` the handler uses: truncate, fall back on `"clip"`, lowercase. -/
def slugifyL (l : List Char) : List Char :=
  (if (slugifyCore l).take 40 = [] then "clip".data else (slugifyCore l).take 40).map
    asciiLower

/-- `handler.slugify` on strings. -/
def slugify (s : String) : String := String.mk (slugifyL s.data)

/-! ### `handler.s3_key` -/

/-- Python `"/".join(parts)`. -/
def joinSlash : List String → String
  | [] => ""
  | [x] => x
  | x :: y :: xs => x ++ "/" ++ joinSlash (y :: xs)

/-- Python `p.strip("/")`. -/
def stripSlashS (s : String) : String :=
  String.mk (dropEnd (fun c => c = '/') (s.data.dropWhile (fun c => c = '/')))

/-- Python `p.replace("\\", "/")`. -/
def replaceBsS (s : String) : String :=
  String.mk (s.data.map (fun c => if c = '\\' then '/' else c))

/-- `handler.s3_key` (lines 21-23): empty parts are dropped, the remaining
parts are slash-stripped then backslash-normalized, and the pieces are joined
after the stripped prefix base and the raw job id. -/
def s3_key (prefixBase job_id : String) (parts : List String) : String :=
  let safe := (parts.filter (fun p => p ≠ "")).map (fun p => replaceBsS (stripSlashS p))
  joinSlash (stripSlashS prefixBase :: job_id :: safe)

/-- Modelled from the claim's words, for comparison with `s3_key`: the key is
`{namespace}/{job_id}/clips/{logical_name}` with namespace and job id each
stripped of leading/trailing slashes and their backslashes normalized. -/
def s3_key_claimed (ns job_id logical_name : String) : String :=
  replaceBsS (stripSlashS ns) ++ "/" ++ replaceBsS (stripSlashS job_id) ++
    "/clips/" ++ logical_name

/-! ### The handler -/

/-- The `input` object of an invocation event; every field the handler reads,
plus the `reextract` flag the specification documents. -/
structure EventInput where
  job_id : Option String := none
  video_url : Option String := none
  input_video_url : Option String := none
  video_path : Option String := none
  input_video_local : Option String := none
  clips_json_url : Option String := none
  reextract : Option Bool := none
deriving DecidableEq

/-- An invocation event: possibly not a dict at all, or a dict with an
optional `input` object. -/
inductive Event where
  | notDict
  | dict (input : Option EventInput)
deriving DecidableEq

/-- The environment a run observes: the fetched-and-parsed manifest, the
source-video download outcome, the filesystem, and the per-path outcomes of
the encoder, the upload, and presigning. -/
structure World where
  fetchManifest : Except String Manifest
  fetchVideo : Except String Unit
  fileExists : String → Bool
  ffmpegRun : String → Except String Unit
  uploadRun : String → Except String Unit
  presignUrl : String → String

/-- Externally visible side effects of a run, in order. -/
inductive Act where
  | actFetchManifest
  | actFetchVideo
  | actFfmpeg (dst : String)
  | actUpload (key : String)
deriving DecidableEq

/-- One element of the success payload's `clips` list (handler lines
156-159). There is no `skipped` field: the source never produces one. -/
structure OutItem where
  index : Nat
  title : String
  start : ℚ
  end_ : ℚ
  key : String
  url : String
  s3_uri : String
deriving DecidableEq

/-- The handler's returned JSON object: a success payload
`{ok: true, job_id, clips}` or a failure payload `{error}`. -/
inductive Resp where
  | ok (job_id : String) (clips : List OutItem)
  | err (msg : String)
deriving DecidableEq

/-- Local output filename for a window (handler lines 148-149):
`{slug}-{idx:03d}.mp4` with the slug falling back on `clip-{idx:03d}`. -/
def fnameOf (it : ItemH) : String :=
  (if it.title ≠ "" then slugify it.title else "clip-" ++ pad3S it.idx) ++
    "-" ++ pad3S it.idx ++ ".mp4"

/-- Local destination path of a window (handler line 149). -/
def dstOf (it : ItemH) : String := "/tmp/" ++ fnameOf it

/-- Storage key of a window (handler line 152). -/
def keyOf (pb jid : String) (it : ItemH) : String := s3_key pb jid ["clips", fnameOf it]

/-- The record appended for a processed window (handler lines 156-159). -/
def outItemOf (bucket pb jid : String) (w : World) (it : ItemH) : OutItem :=
  { index := it.idx, title := it.title, start := it.start, end_ := it.end_,
    key := keyOf pb jid it, url := w.presignUrl (keyOf pb jid it),
    s3_uri := "s3://" ++ bucket ++ "/" ++ keyOf pb jid it }

/-- The per-window loop of the handler (lines 143-159): encode, upload,
presign, and record; the first failure aborts the loop and is reported. -/
def processWindows (bucket pb jid : String) (w : World) :
    List ItemH → Except String (List OutItem) × List Act
  | [] => (.ok [], [])
  | it :: rest =>
      match w.ffmpegRun (dstOf it) with
      | .error e => (.error ("ffmpeg failed: " ++ e), [.actFfmpeg (dstOf it)])
      | .ok _ =>
          match w.uploadRun (keyOf pb jid it) with
          | .error e =>
              (.error e, [.actFfmpeg (dstOf it), .actUpload (keyOf pb jid it)])
          | .ok _ =>
              match processWindows bucket pb jid w rest with
              | (.ok items, tr) =>
                  (.ok (outItemOf bucket pb jid w it :: items),
                    .actFfmpeg (dstOf it) :: .actUpload (keyOf pb jid it) :: tr)
              | (.error e, tr) =>
                  (.error e, .actFfmpeg (dstOf it) :: .actUpload (keyOf pb jid it) :: tr)

/-- `handler.ensure_local_video` (lines 56-69): HTTP and s3 references are
downloaded to a temporary path, anything else is taken as a local path. -/
def ensureLocalVideo (w : World) (u : String) : Except String String × List Act :=
  if u.startsWith "http" then
    (w.fetchVideo.map (fun _ => "/tmp/input.mp4"), [.actFetchVideo])
  else if u.startsWith "s3://" then
    (w.fetchVideo.map (fun _ => "/tmp/input.mp4"), [.actFetchVideo])
  else (.ok u, [])

/-- The empty `input` object the handler substitutes for a missing or
non-dict event payload. -/
def emptyEventInput : EventInput := {}

/-- `event.get("input", {})` with the non-dict guard (handler line 120). -/
def eventData : Event → EventInput
  | .dict (some di) => di
  | _ => emptyEventInput

/-- `(data.get("job_id") or "").strip()` (handler line 121). -/
def jobIdOf (ev : Event) : String :=
  pyStripS ((pyOrS (eventData ev).job_id (some "")).getD "")

/-- Handler lines 125-161: resolve the source video, then run the per-window
loop; the manifest has already been loaded. -/
def handlerCore (bucket pb : String) (d : EventInput) (jid : String) (w : World)
    (windows : List ItemH) : Resp × List Act :=
  if truthyS (pyOrS d.video_url d.input_video_url) then
    match ensureLocalVideo w ((pyOrS d.video_url d.input_video_url).getD "") with
    | (.error e, tr2) => (.err e, .actFetchManifest :: tr2)
    | (.ok _, tr2) =>
        match processWindows bucket pb jid w windows with
        | (.ok items, tr3) => (.ok jid items, .actFetchManifest :: (tr2 ++ tr3))
        | (.error e, tr3) => (.err e, .actFetchManifest :: (tr2 ++ tr3))
  else if truthyS (pyOrS d.video_path d.input_video_local) then
    match processWindows bucket pb jid w windows with
    | (.ok items, tr3) => (.ok jid items, .actFetchManifest :: tr3)
    | (.error e, tr3) => (.err e, .actFetchManifest :: tr3)
  else (.err "Provide video_url (preferred) or video_path.", [.actFetchManifest])

/-- Dispatch on the parsed manifest: a parse failure is reported, a window
list is processed. -/
def afterParse (bucket pb : String) (ev : Event) (w : World)
    (r : Except String (List ItemH)) : Resp × List Act :=
  match r with
  | .error e => (.err e, [.actFetchManifest])
  | .ok windows => handlerCore bucket pb (eventData ev) (jobIdOf ev) w windows

/-- Handler lines 132-161 beyond the manifest fetch: parse the manifest and
run the rest of the job on its windows. -/
def afterManifest (bucket pb : String) (ev : Event) (w : World)
    (r : Except String Manifest) : Resp × List Act :=
  match r with
  | .error e => (.err e, [.actFetchManifest])
  | .ok m => afterParse bucket pb ev w (load_clips_config_parse m)

/-- `handler.handler` (lines 108-167): the try/except body, returning the
response object and the ordered external actions it performed. -/
def handlerM (bucket pb : String) (ev : Event) (w : World) : Resp × List Act :=
  if jobIdOf ev = "" then (.err "job_id is required", [])
  else afterManifest bucket pb ev w w.fetchManifest

/-- Number of encoder invocations recorded in a trace. -/
def countFfmpeg (tr : List Act) : Nat :=
  (tr.filter (fun a => match a with | .actFfmpeg _ => true | _ => false)).length

/-! ### Lemmas: characters and digits -/

theorem charOfNat_toNat {n : Nat} (h : n < 55296) : (Char.ofNat n).toNat = n := by
  unfold Char.ofNat
  split
  · simp [Char.toNat, Char.ofNatAux, UInt32.toNat, BitVec.toNat_ofNatLt]
  · rename_i hv
    exact absurd (Or.inl (by omega)) hv

theorem char_toNat_inj {a b : Char} (h : a.toNat = b.toNat) : a = b :=
  Char.ext (UInt32.ext h)

theorem asciiLower_hyphen {c : Char} (h : asciiLower c = '-') : c = '-' := by
  unfold asciiLower at h
  split at h
  · exfalso
    rename_i hc
    simp only [Bool.and_eq_true, decide_eq_true_eq] at hc
    have v1 : 65 ≤ c.toNat := hc.1
    have v2 : c.toNat ≤ 90 := hc.2
    have h2 := congrArg Char.toNat h
    rw [charOfNat_toNat (by omega)] at h2
    have hd : ('-').toNat = 45 := by decide
    omega
  · exact h

/-- The character class of the claim: the lowercase image of the safe class. -/
def isLowerSafe (c : Char) : Bool :=
  ('a' ≤ c && c ≤ 'z') || ('0' ≤ c && c ≤ '9') || c = '-' || c = '_' || c = '.'

theorem asciiLower_safe {c : Char} (h : isSafeCh c = true) :
    isLowerSafe (asciiLower c) = true := by
  unfold asciiLower
  split
  · rename_i hc
    simp only [Bool.and_eq_true, decide_eq_true_eq] at hc
    have v1 : 65 ≤ c.toNat := hc.1
    have v2 : c.toNat ≤ 90 := hc.2
    have ht : (Char.ofNat (c.toNat + 32)).toNat = c.toNat + 32 :=
      charOfNat_toNat (by omega)
    unfold isLowerSafe
    have g1 : 'a' ≤ Char.ofNat (c.toNat + 32) := by
      show (97 : Nat) ≤ (Char.ofNat (c.toNat + 32)).toNat
      omega
    have g2 : Char.ofNat (c.toNat + 32) ≤ 'z' := by
      show (Char.ofNat (c.toNat + 32)).toNat ≤ 122
      omega
    simp [g1, g2]
  · rename_i hc
    simp only [Bool.and_eq_true, decide_eq_true_eq, not_and] at hc
    simp only [isSafeCh, Bool.or_eq_true, Bool.and_eq_true, decide_eq_true_eq] at h
    simp only [isLowerSafe, Bool.or_eq_true, Bool.and_eq_true, decide_eq_true_eq]
    rcases h with ((((⟨l1, l2⟩ | ⟨u1, u2⟩) | ⟨d1, d2⟩) | hh) | hu) | hd
    · exact Or.inl (Or.inl (Or.inl (Or.inl ⟨l1, l2⟩)))
    · exact absurd u2 (hc u1)
    · exact Or.inl (Or.inl (Or.inl (Or.inr ⟨d1, d2⟩)))
    · exact Or.inl (Or.inl (Or.inr hh))
    · exact Or.inl (Or.inr hu)
    · exact Or.inr hd

theorem charVal_digitCh : ∀ d < 10, charVal (digitCh d) = d := by decide

theorem isDigitCh_digitCh : ∀ d < 10, isDigitCh (digitCh d) = true := by decide

theorem valLE_digitsAux : ∀ (fuel n : Nat), n ≤ fuel → valLE (digitsAux fuel n) = n := by
  intro fuel
  induction fuel with
  | zero =>
      intro n hn
      interval_cases n
      rfl
  | succ f ih =>
      intro n hn
      match n with
      | 0 => rfl
      | m + 1 =>
          have hdiv : (m + 1) / 10 ≤ f := by
            have := Nat.div_lt_self (Nat.succ_pos m) (by norm_num : 1 < 10)
            omega
          show charVal (digitCh ((m + 1) % 10)) + 10 * valLE (digitsAux f ((m + 1) / 10)) = m + 1
          rw [charVal_digitCh _ (Nat.mod_lt _ (by norm_num)), ih _ hdiv]
          omega

theorem valBE_natReprL (n : Nat) : valBE (natReprL n) = n := by
  unfold natReprL valBE
  split
  · rename_i h
    subst h
    decide
  · rw [List.reverse_reverse]
    exact valLE_digitsAux n n le_rfl

theorem digitsAux_all_digits :
    ∀ (fuel n : Nat) (c : Char), c ∈ digitsAux fuel n → isDigitCh c = true := by
  intro fuel
  induction fuel with
  | zero =>
      intro n c hc
      cases n <;> simp [digitsAux] at hc
  | succ f ih =>
      intro n c hc
      match n with
      | 0 => simp [digitsAux] at hc
      | m + 1 =>
          simp only [digitsAux, List.mem_cons] at hc
          rcases hc with h | h
          · subst h
            exact isDigitCh_digitCh _ (Nat.mod_lt _ (by norm_num))
          · exact ih _ _ h

theorem natReprL_all_digits {n : Nat} {c : Char} (hc : c ∈ natReprL n) :
    isDigitCh c = true := by
  unfold natReprL at hc
  split at hc
  · simp at hc
    subst hc
    decide
  · exact digitsAux_all_digits _ _ _ (List.mem_reverse.mp hc)

theorem natReprL_ne_nil (n : Nat) : natReprL n ≠ [] := by
  unfold natReprL
  split
  · simp
  · rename_i h
    match n, h with
    | m + 1, _ =>
        show (digitsAux (m + 1) (m + 1)).reverse ≠ []
        simp [digitsAux]

theorem pad3L_all_digits {n : Nat} {c : Char} (hc : c ∈ pad3L n) :
    isDigitCh c = true := by
  unfold pad3L at hc
  rcases List.mem_append.mp hc with h | h
  · rw [List.eq_of_mem_replicate h]
    decide
  · exact natReprL_all_digits h

theorem pad3L_ne_nil (n : Nat) : pad3L n ≠ [] := by
  unfold pad3L
  intro h
  rcases List.append_eq_nil.mp h with ⟨-, h2⟩
  exact natReprL_ne_nil n h2

theorem valLE_append_zeros : ∀ (l : List Char) (k : Nat),
    valLE (l ++ List.replicate k '0') = valLE l := by
  intro l
  induction l with
  | nil =>
      intro k
      induction k with
      | zero => rfl
      | succ m ihm =>
          show charVal '0' + 10 * valLE (List.replicate m '0') = 0
          simp only [List.nil_append] at ihm
          rw [ihm]
          decide
  | cons c cs ih =>
      intro k
      show charVal c + 10 * valLE (cs ++ List.replicate k '0') = charVal c + 10 * valLE cs
      rw [ih]

theorem valBE_pad3L (n : Nat) : valBE (pad3L n) = n := by
  unfold pad3L valBE
  rw [List.reverse_append, List.reverse_replicate, valLE_append_zeros]
  exact valBE_natReprL n

theorem pad3L_inj {a b : Nat} (h : pad3L a = pad3L b) : a = b := by
  have := congrArg valBE h
  rwa [valBE_pad3L, valBE_pad3L] at this

/-! ### Lemmas: filename injectivity -/

theorem takeWhile_all_cons {p : Char → Bool} :
    ∀ {P : List Char} {q : Char} {R : List Char},
      (∀ c ∈ P, p c = true) → p q = false →
      List.takeWhile p (P ++ q :: R) = P := by
  intro P
  induction P with
  | nil =>
      intro q R _ hq
      simp [List.takeWhile, hq]
  | cons c cs ih =>
      intro q R hall hq
      have hc : p c = true := hall c (List.mem_cons_self c cs)
      show List.takeWhile p (c :: (cs ++ q :: R)) = c :: cs
      rw [List.takeWhile_cons_of_pos hc]
      exact congrArg (List.cons c)
        (ih (fun d hd => hall d (List.mem_cons_of_mem c hd)) hq)

/-- Two filenames of the shape `{slug}-{digits}.mp4` agree only if both the
digit blocks and the slugs agree, whatever the slugs contain. -/
theorem fname_shape_inj {s t P Q : List Char}
    (hP : ∀ c ∈ P, isDigitCh c = true) (hQ : ∀ c ∈ Q, isDigitCh c = true)
    (h : s ++ '-' :: (P ++ ['.', 'm', 'p', '4']) = t ++ '-' :: (Q ++ ['.', 'm', 'p', '4'])) :
    P = Q ∧ s = t := by
  have hrev := congrArg List.reverse h
  have e1 : (s ++ '-' :: (P ++ ['.', 'm', 'p', '4'])).reverse =
      ['4', 'p', 'm', '.'] ++ (P.reverse ++ '-' :: s.reverse) := by
    simp [List.reverse_append, List.reverse_cons, List.append_assoc]
  have e2 : (t ++ '-' :: (Q ++ ['.', 'm', 'p', '4'])).reverse =
      ['4', 'p', 'm', '.'] ++ (Q.reverse ++ '-' :: t.reverse) := by
    simp [List.reverse_append, List.reverse_cons, List.append_assoc]
  rw [e1, e2] at hrev
  have hstep := List.append_cancel_left hrev
  have htake := congrArg (List.takeWhile isDigitCh) hstep
  rw [takeWhile_all_cons (fun c hc => hP c (List.mem_reverse.mp hc)) (by decide),
      takeWhile_all_cons (fun c hc => hQ c (List.mem_reverse.mp hc)) (by decide)] at htake
  have hPQ : P = Q := by
    have := congrArg List.reverse htake
    simpa using this
  subst hPQ
  refine ⟨rfl, ?_⟩
  rw [htake] at hstep
  have h2 := List.append_cancel_left hstep
  injection h2 with _ h3
  have := congrArg List.reverse h3
  simpa using this

/-- The characters of `fnameOf it`, grouped as slug, hyphen, digit block,
extension. -/
theorem fnameOf_data (it : ItemH) :
    (fnameOf it).data =
      (if it.title ≠ "" then slugify it.title else "clip-" ++ pad3S it.idx).data ++
        '-' :: (pad3L it.idx ++ ['.', 'm', 'p', '4']) := by
  unfold fnameOf
  generalize (if it.title ≠ "" then slugify it.title else "clip-" ++ pad3S it.idx) = a
  show ((a.data ++ ['-']) ++ pad3L it.idx) ++ ['.', 'm', 'p', '4'] =
    a.data ++ '-' :: (pad3L it.idx ++ ['.', 'm', 'p', '4'])
  simp [List.append_assoc]

/-- Windows with different indices receive different filenames, whatever
their titles. -/
theorem fnameOf_inj {a b : ItemH} (hne : a.idx ≠ b.idx) : fnameOf a ≠ fnameOf b := by
  intro h
  have hd := congrArg String.data h
  rw [fnameOf_data, fnameOf_data] at hd
  have := fname_shape_inj (fun c hc => pad3L_all_digits hc)
    (fun c hc => pad3L_all_digits hc) hd
  exact hne (pad3L_inj this.1)

/-! ### Lemmas: slugify -/

/-- No two adjacent hyphens. -/
def NoHH (l : List Char) : Prop :=
  List.Chain' (fun a b => ¬(a = '-' ∧ b = '-')) l

theorem mem_sub1Aux : ∀ (b : Bool) (l : List Char) (c : Char),
    c ∈ sub1Aux b l → isSafeCh c = true := by
  intro b l
  induction l generalizing b with
  | nil => intro c hc; simp [sub1Aux] at hc
  | cons d ds ih =>
      intro c hc
      unfold sub1Aux at hc
      split at hc
      · rename_i hs
        rcases List.mem_cons.mp hc with h | h
        · subst h; exact hs
        · exact ih false c h
      · split at hc
        · exact ih true c hc
        · rcases List.mem_cons.mp hc with h | h
          · subst h; decide
          · exact ih true c h

theorem mem_collapseAux : ∀ (b : Bool) (l : List Char) (c : Char),
    c ∈ collapseAux b l → c ∈ l := by
  intro b l
  induction l generalizing b with
  | nil => intro c hc; simp [collapseAux] at hc
  | cons d ds ih =>
      intro c hc
      unfold collapseAux at hc
      split at hc
      · rename_i hd
        subst hd
        split at hc
        · exact List.mem_cons_of_mem _ (ih true c hc)
        · rcases List.mem_cons.mp hc with h | h
          · subst h; exact List.mem_cons_self _ _
          · exact List.mem_cons_of_mem _ (ih true c h)
      · rcases List.mem_cons.mp hc with h | h
        · subst h; exact List.mem_cons_self _ _
        · exact List.mem_cons_of_mem _ (ih false c h)

theorem collapseAux_head_ne : ∀ (l : List Char) (c : Char) (t : List Char),
    collapseAux true l = c :: t → c ≠ '-' := by
  intro l
  induction l with
  | nil => intro c t h; simp [collapseAux] at h
  | cons d ds ih =>
      intro c t h
      unfold collapseAux at h
      split at h
      · exact ih c t h
      · rename_i hd
        have h1 : d = c := ((List.cons.injEq ..).mp h).1
        intro hcc
        exact hd (h1.trans hcc)

theorem noHH_collapseAux : ∀ (l : List Char) (b : Bool), NoHH (collapseAux b l) := by
  intro l
  induction l with
  | nil => intro b; simp [collapseAux, NoHH]
  | cons d ds ih =>
      intro b
      unfold collapseAux
      split
      · rename_i hd
        subst hd
        split
        · exact ih true
        · show NoHH ('-' :: collapseAux true ds)
          unfold NoHH
          cases hcol : collapseAux true ds with
          | nil => simp
          | cons c t =>
              refine List.chain'_cons.mpr ⟨?_, ?_⟩
              · intro ⟨_, hc⟩
                exact collapseAux_head_ne ds c t hcol hc
              · have := ih true
                rwa [NoHH, hcol] at this
      · rename_i hd
        show NoHH (d :: collapseAux false ds)
        unfold NoHH
        cases hcol : collapseAux false ds with
        | nil => simp
        | cons c t =>
            refine List.chain'_cons.mpr ⟨?_, ?_⟩
            · intro ⟨hdh, _⟩
              exact hd hdh
            · have := ih false
              rwa [NoHH, hcol] at this

theorem noHH_dropWhile {p : Char → Bool} {l : List Char} (h : NoHH l) :
    NoHH (l.dropWhile p) :=
  List.Chain'.suffix h (List.dropWhile_suffix p)

theorem noHH_reverse {l : List Char} (h : NoHH l) : NoHH l.reverse := by
  unfold NoHH at h ⊢
  rw [List.chain'_reverse]
  exact h.imp (fun a b hab ⟨h1, h2⟩ => hab ⟨h2, h1⟩)

theorem noHH_dropEnd {p : Char → Bool} {l : List Char} (h : NoHH l) :
    NoHH (dropEnd p l) :=
  noHH_reverse (noHH_dropWhile (noHH_reverse h))

theorem noHH_take {l : List Char} (h : NoHH l) (n : Nat) : NoHH (l.take n) :=
  List.Chain'.take h n

theorem noHH_map_lower {l : List Char} (h : NoHH l) : NoHH (l.map asciiLower) := by
  unfold NoHH at h ⊢
  rw [List.chain'_map]
  exact h.imp (fun a b hab ⟨h1, h2⟩ => hab ⟨asciiLower_hyphen h1, asciiLower_hyphen h2⟩)

theorem dropWhile_head_false {p : Char → Bool} :
    ∀ {l : List Char} {c : Char} {t : List Char},
      l.dropWhile p = c :: t → p c = false := by
  intro l
  induction l with
  | nil => intro c t h; simp [List.dropWhile] at h
  | cons d ds ih =>
      intro c t h
      rw [List.dropWhile_cons] at h
      split at h
      · exact ih h
      · rename_i hp
        have h1 : d = c := ((List.cons.injEq ..).mp h).1
        subst h1
        simpa using hp

theorem dropEnd_front (p : Char → Bool) (l : List Char) : dropEnd p l <+: l := by
  unfold dropEnd
  have h1 : l.reverse.dropWhile p <:+ l.reverse := List.dropWhile_suffix p
  have := List.reverse_prefix.mpr h1
  simpa using this

theorem mem_dropEnd {p : Char → Bool} {l : List Char} {c : Char}
    (h : c ∈ dropEnd p l) : c ∈ l :=
  (dropEnd_front p l).subset h

theorem slugifyCore_safe {l : List Char} {c : Char} (hc : c ∈ slugifyCore l) :
    isSafeCh c = true := by
  unfold slugifyCore stripHyphens at hc
  have h1 := mem_dropEnd hc
  have h2 := (List.dropWhile_suffix (fun c => c = '-')).subset h1
  exact mem_sub1Aux false _ c (mem_collapseAux false _ c h2)

theorem take_head_eq {l : List Char} {n : Nat} {c : Char} {t : List Char}
    (h : l.take n = c :: t) : ∃ t', l = c :: t' := by
  match l, n with
  | [], _ => simp at h
  | d :: ds, 0 => simp at h
  | d :: ds, m + 1 =>
      rw [List.take_succ_cons] at h
      exact ⟨ds, by rw [((List.cons.injEq ..).mp h).1]⟩

theorem slugifyCore_head {l : List Char} {c : Char} {t : List Char}
    (h : slugifyCore l = c :: t) : c ≠ '-' := by
  unfold slugifyCore stripHyphens at h
  obtain ⟨r, hr⟩ := dropEnd_front (fun c => c = '-')
    ((collapseAux false (sub1Aux false (pyStripL l))).dropWhile (fun c => c = '-'))
  rw [h] at hr
  have := dropWhile_head_false hr.symm
  simpa using this

theorem slugifyL_ne_nil (l : List Char) : slugifyL l ≠ [] := by
  unfold slugifyL
  split
  · decide
  · rename_i h
    simpa [List.map_eq_nil_iff] using h

theorem slugifyL_length (l : List Char) : (slugifyL l).length ≤ 40 := by
  unfold slugifyL
  rw [List.length_map]
  split
  · decide
  · exact le_trans (List.length_take_le 40 _) (le_refl 40)

theorem slugifyL_chars {l : List Char} {c : Char} (hc : c ∈ slugifyL l) :
    isLowerSafe c = true := by
  unfold slugifyL at hc
  rcases List.mem_map.mp hc with ⟨d, hd, rfl⟩
  apply asciiLower_safe
  split at hd
  · have e : ("clip".data) = ['c', 'l', 'i', 'p'] := rfl
    rw [e] at hd
    simp only [List.mem_cons, List.not_mem_nil, or_false] at hd
    rcases hd with rfl | rfl | rfl | rfl <;> decide
  · exact slugifyCore_safe (List.take_subset _ _ hd)

theorem slugifyL_noHH (l : List Char) : NoHH (slugifyL l) := by
  unfold slugifyL
  apply noHH_map_lower
  split
  · show NoHH ['c', 'l', 'i', 'p']
    unfold NoHH
    refine List.chain'_cons.mpr ⟨by simp, ?_⟩
    refine List.chain'_cons.mpr ⟨by simp, ?_⟩
    refine List.chain'_cons.mpr ⟨by simp, ?_⟩
    simp
  · exact noHH_take (noHH_dropEnd (noHH_dropWhile (noHH_collapseAux _ false))) 40

theorem slugifyL_head {l : List Char} {c : Char} {t : List Char}
    (h : slugifyL l = c :: t) : c ≠ '-' := by
  unfold slugifyL at h
  split at h
  · have e : ("clip".data).map asciiLower = ['c', 'l', 'i', 'p'] := by decide
    rw [e] at h
    rw [← ((List.cons.injEq ..).mp h).1]
    decide
  · rename_i hne
    cases hcore : (slugifyCore l).take 40 with
    | nil => exact absurd hcore hne
    | cons d ds =>
        rw [hcore] at h
        have hcd : c = asciiLower d := (((List.cons.injEq ..).mp h).1).symm
        obtain ⟨t', ht'⟩ := take_head_eq hcore
        have hdne := slugifyCore_head ht'
        intro hch
        exact hdne (asciiLower_hyphen (hcd ▸ hch))

/-! ### Lemmas: generic character and string helpers -/

theorem bool_pred_ne {p : Char → Bool} {c x : Char} (hc : p c = true)
    (hx : p x = false) : c ≠ x := by
  intro h
  subst h
  rw [hc] at hx
  exact Bool.noConfusion hx

theorem dropWhile_eq_self {p : Char → Bool} :
    ∀ {l : List Char}, (∀ c ∈ l, p c = false) → l.dropWhile p = l := by
  intro l
  induction l with
  | nil => intro _; rfl
  | cons d ds ih =>
      intro h
      rw [List.dropWhile_cons, h d (List.mem_cons_self d ds)]
      simp

theorem dropEnd_eq_self {p : Char → Bool} {l : List Char}
    (h : ∀ c ∈ l, p c = false) : dropEnd p l = l := by
  unfold dropEnd
  rw [dropWhile_eq_self (fun c hc => h c (List.mem_reverse.mp hc))]
  exact List.reverse_reverse l

theorem map_eq_self {f : Char → Char} :
    ∀ {l : List Char}, (∀ c ∈ l, f c = c) → l.map f = l := by
  intro l
  induction l with
  | nil => intro _; rfl
  | cons d ds ih =>
      intro h
      rw [List.map_cons, h d (List.mem_cons_self d ds),
        ih (fun c hc => h c (List.mem_cons_of_mem d hc))]

theorem string_data_inj {a b : String} (h : a.data = b.data) : a = b := by
  cases a
  cases b
  cases h
  rfl

theorem string_append_cancel_left {a b c : String} (h : a ++ b = a ++ c) : b = c := by
  apply string_data_inj
  have hd := congrArg String.data h
  exact List.append_cancel_left hd

/-! ### Lemmas: storage keys -/

theorem stripSlashS_clean {s : String} (h : ∀ c ∈ s.data, c ≠ '/') :
    stripSlashS s = s := by
  unfold stripSlashS
  have h1 : ∀ c ∈ s.data, (decide (c = '/') : Bool) = false := by
    intro c hc
    simpa using h c hc
  rw [dropWhile_eq_self h1, dropEnd_eq_self h1]

theorem replaceBsS_clean {s : String} (h : ∀ c ∈ s.data, c ≠ '\\') :
    replaceBsS s = s := by
  unfold replaceBsS
  rw [map_eq_self (fun c hc => by simp [h c hc])]

theorem fnameOf_chars {it : ItemH} {c : Char} (hc : c ∈ (fnameOf it).data) :
    c ≠ '/' ∧ c ≠ '\\' := by
  rw [fnameOf_data] at hc
  have safe_ne : ∀ d : Char, isLowerSafe d = true → d ≠ '/' ∧ d ≠ '\\' := fun d hd =>
    ⟨bool_pred_ne hd (by decide), bool_pred_ne hd (by decide)⟩
  have dig_ne : ∀ d : Char, isDigitCh d = true → d ≠ '/' ∧ d ≠ '\\' := fun d hd =>
    ⟨bool_pred_ne hd (by decide), bool_pred_ne hd (by decide)⟩
  rcases List.mem_append.mp hc with h1 | h1
  · split at h1
    · exact safe_ne c (slugifyL_chars h1)
    · rename_i hti
      have e : ("clip-" ++ pad3S it.idx).data = ['c', 'l', 'i', 'p', '-'] ++ pad3L it.idx := by
        show "clip-".data ++ pad3L it.idx = ['c', 'l', 'i', 'p', '-'] ++ pad3L it.idx
        rfl
      rw [e] at h1
      rcases List.mem_append.mp h1 with h2 | h2
      · simp only [List.mem_cons, List.not_mem_nil, or_false] at h2
        rcases h2 with rfl | rfl | rfl | rfl | rfl <;> exact ⟨by decide, by decide⟩
      · exact dig_ne c (pad3L_all_digits h2)
  · simp only [List.mem_cons] at h1
    rcases h1 with rfl | h1
    · exact ⟨by decide, by decide⟩
    · rcases List.mem_append.mp h1 with h2 | h2
      · exact dig_ne c (pad3L_all_digits h2)
      · simp only [List.mem_cons, List.not_mem_nil, or_false] at h2
        rcases h2 with rfl | rfl | rfl | rfl <;> exact ⟨by decide, by decide⟩

theorem fnameOf_ne_empty (it : ItemH) : fnameOf it ≠ "" := by
  intro h
  have hd := congrArg String.data h
  rw [fnameOf_data] at hd
  have : (0 : Nat) < ((if it.title ≠ "" then slugify it.title
      else "clip-" ++ pad3S it.idx).data ++ '-' :: (pad3L it.idx ++ ['.', 'm', 'p', '4'])).length := by
    simp
  rw [hd] at this
  simp at this

/-- On the arguments the handler passes, `s3_key` is the join of the stripped
prefix base, the raw job id, `clips`, and the (unchanged) filename. -/
theorem s3_key_clips {pb jid nm : String} (h1 : nm ≠ "")
    (h2 : ∀ c ∈ nm.data, c ≠ '/' ∧ c ≠ '\\') :
    s3_key pb jid ["clips", nm] = stripSlashS pb ++ "/" ++ jid ++ "/clips/" ++ nm := by
  unfold s3_key
  have hf : List.filter (fun p => p ≠ "") ["clips", nm] = ["clips", nm] := by
    simp [List.filter, h1]
  rw [hf]
  have hclips : replaceBsS (stripSlashS "clips") = "clips" := by decide
  have hnm : replaceBsS (stripSlashS nm) = nm := by
    rw [stripSlashS_clean (fun c hc => (h2 c hc).1)]
    exact replaceBsS_clean (fun c hc => (h2 c hc).2)
  show joinSlash [stripSlashS pb, jid,
    replaceBsS (stripSlashS "clips"), replaceBsS (stripSlashS nm)] = _
  rw [hclips, hnm]
  show stripSlashS pb ++ "/" ++ (jid ++ "/" ++ ("clips" ++ "/" ++ nm)) = _
  apply string_data_inj
  show (stripSlashS pb).data ++ "/".data ++ (jid.data ++ "/".data ++
    ("clips".data ++ "/".data ++ nm.data)) = _
  show _ = (stripSlashS pb).data ++ "/".data ++ jid.data ++ "/clips/".data ++ nm.data
  simp [List.append_assoc]

/-! ### Lemmas: manifest normalization -/

/-- An accepted window always carries the 1-based position it was
enumerated with. -/
theorem normEntryH_ok_some {idx : Nat} {c : RawClip} {it : ItemH}
    (h : normEntryH idx c = .ok (some it)) : it.idx = idx := by
  unfold normEntryH at h
  split at h
  · exact Except.noConfusion h
  · split at h
    · rename_i sv ev
      split at h
      · exact Except.noConfusion h
      · split at h
        · exact Except.noConfusion h
        · have h1 := (Except.ok.injEq ..).mp h
          have h2 := (Option.some.injEq ..).mp h1
          rw [← h2]
    · simp at h

/-- A manifest entry with no end alias and no duration is silently dropped by
the handler's normalization, whatever its start. -/
theorem normEntryH_dropped {idx : Nat} {c : RawClip} (hend : c.end_ = none)
    (hends : c.end_s = none) (hto : c.to_ = none) (hdur : c.duration = none) :
    normEntryH idx c = .ok none := by
  have he0 : endAlias c = none := by
    unfold endAlias
    rw [hend, hends, hto]
    rfl
  have her : endResolved c = .ok none := by
    unfold endResolved
    rw [he0, hdur]
    cases startAlias c <;> simp
  unfold normEntryH
  rw [her]
  cases hs : startAlias c <;> rfl

/-- The all-absent manifest entry. -/
def blankClip : RawClip := {}

theorem normEntryH_blank (idx : Nat) : normEntryH idx blankClip = .ok none :=
  normEntryH_dropped rfl rfl rfl rfl

/-- Replacing a dropped entry by the blank entry does not change the
handler's normalization output: the loop continues with the rest either way. -/
theorem normAuxH_set_blank :
    ∀ (cs : List RawClip) (k i : Nat) (hc : i < cs.length),
      normEntryH (k + i) (cs.get ⟨i, hc⟩) = .ok none →
      normAuxH k cs = normAuxH k (cs.set i blankClip) := by
  intro cs
  induction cs with
  | nil => intro k i hc _; simp at hc
  | cons d ds ih =>
      intro k i hc hdrop
      match i with
      | 0 =>
          have hd : normEntryH k d = .ok none := by simpa using hdrop
          show normAuxH k (d :: ds) = normAuxH k (blankClip :: ds)
          unfold normAuxH
          rw [hd, normEntryH_blank k]
      | j + 1 =>
          have hj : j < ds.length := by simpa using hc
          have hdrop' : normEntryH (k + 1 + j) (ds.get ⟨j, hj⟩) = .ok none := by
            have : k + 1 + j = k + (j + 1) := by omega
            rw [this]
            simpa using hdrop
          show normAuxH k (d :: ds) = normAuxH k (d :: ds.set j blankClip)
          unfold normAuxH
          rw [ih (k + 1) j hj hdrop']

/-- The strict loader fails outright whenever some entry has neither an end
nor a duration. -/
theorem utilsGo_fails :
    ∀ (cs : List RawClip) (k : Nat) (c : RawClip), c ∈ cs →
      c.end_ = none → c.duration = none →
      ∃ msg, utilsGo k cs = .error msg := by
  intro cs
  induction cs with
  | nil => intro k c hc; simp at hc
  | cons d ds ih =>
      intro k c hc hend hdur
      rcases List.mem_cons.mp hc with rfl | hmem
      · unfold utilsGo
        cases hps : parse_timecode c.start with
        | error e => exact ⟨e, rfl⟩
        | ok st =>
            rw [hend, hdur]
            exact ⟨"Each clip needs either 'end' or 'duration'.", rfl⟩
      · unfold utilsGo
        cases hps : parse_timecode d.start with
        | error e => exact ⟨e, rfl⟩
        | ok st =>
            cases hev : (match d.end_ with
                | some v => (parse_timecode (some v)).map some
                | none => .ok (none : Option ℚ)) with
            | error e => exact ⟨e, rfl⟩
            | ok endv =>
                cases hdv : (match d.duration with
                    | some v => (parse_timecode (some v)).map some
                    | none => .ok (none : Option ℚ)) with
                | error e => exact ⟨e, rfl⟩
                | ok durv =>
                    obtain ⟨msg, hmsg⟩ := ih (k + 1) c hmem hend hdur
                    cases endv with
                    | none =>
                        cases durv with
                        | none => exact ⟨_, rfl⟩
                        | some dq =>
                            rw [hmsg]
                            exact ⟨msg, rfl⟩
                    | some eq =>
                        rw [hmsg]
                        exact ⟨msg, rfl⟩

/-- Indices produced by the normalization loop are at least the running
index. -/
theorem normAuxH_idx_ge :
    ∀ (cs : List RawClip) (k : Nat) (ws : List ItemH),
      normAuxH k cs = .ok ws → ∀ it ∈ ws, k ≤ it.idx := by
  intro cs
  induction cs with
  | nil =>
      intro k ws h it hit
      have : ws = [] := by simpa [normAuxH] using h.symm
      subst this
      simp at hit
  | cons d ds ih =>
      intro k ws h it hit
      unfold normAuxH at h
      cases he : normEntryH k d with
      | error e => rw [he] at h; exact Except.noConfusion h
      | ok it? =>
          rw [he] at h
          cases hr : normAuxH (k + 1) ds with
          | error e => rw [hr] at h; exact Except.noConfusion h
          | ok rest =>
              rw [hr] at h
              cases it? with
              | some it0 =>
                  simp only [Except.ok.injEq] at h
                  subst h
                  rcases List.mem_cons.mp hit with rfl | hmem
                  · exact le_of_eq (normEntryH_ok_some he).symm
                  · exact le_trans (Nat.le_succ k) (ih (k + 1) rest hr it hmem)
              | none =>
                  simp only [Except.ok.injEq] at h
                  subst h
                  exact le_trans (Nat.le_succ k) (ih (k + 1) rest hr it hit)

/-- Indices produced by the normalization loop are strictly increasing. -/
theorem normAuxH_pairwise :
    ∀ (cs : List RawClip) (k : Nat) (ws : List ItemH),
      normAuxH k cs = .ok ws →
      List.Pairwise (fun a b : ItemH => a.idx < b.idx) ws := by
  intro cs
  induction cs with
  | nil =>
      intro k ws h
      have : ws = [] := by simpa [normAuxH] using h.symm
      subst this
      exact List.Pairwise.nil
  | cons d ds ih =>
      intro k ws h
      unfold normAuxH at h
      cases he : normEntryH k d with
      | error e => rw [he] at h; exact Except.noConfusion h
      | ok it? =>
          rw [he] at h
          cases hr : normAuxH (k + 1) ds with
          | error e => rw [hr] at h; exact Except.noConfusion h
          | ok rest =>
              rw [hr] at h
              cases it? with
              | some it0 =>
                  simp only [Except.ok.injEq] at h
                  subst h
                  refine List.Pairwise.cons ?_ (ih (k + 1) rest hr)
                  intro b hb
                  have hk := normAuxH_idx_ge ds (k + 1) rest hr b hb
                  have := normEntryH_ok_some he
                  omega
              | none =>
                  simp only [Except.ok.injEq] at h
                  subst h
                  exact ih (k + 1) rest hr

/-- A successful parse of the manifest comes from a shape-accepted clip list
whose normalization succeeded non-empty. -/
theorem load_clips_config_parse_ok {m : Manifest} {ws : List ItemH}
    (h : load_clips_config_parse m = .ok ws) :
    ∃ cs, extractClips m = .ok cs ∧ normAuxH 1 cs = .ok ws ∧ ws ≠ [] := by
  unfold load_clips_config_parse at h
  split at h
  · exact Except.noConfusion h
  · rename_i cs hx
    split at h
    · exact Except.noConfusion h
    · rename_i norm hn
      split at h
      · exact Except.noConfusion h
      · rename_i hne
        have := (Except.ok.injEq ..).mp h
        subst this
        exact ⟨cs, hx, hn, hne⟩

/-! ### Lemmas: the per-window loop and the handler -/

theorem countFfmpeg_append (a b : List Act) :
    countFfmpeg (a ++ b) = countFfmpeg a + countFfmpeg b := by
  unfold countFfmpeg
  rw [List.filter_append, List.length_append]

/-- On success, the loop emits one encoder invocation per window and one
output item per window, whose key is the storage key of that window's
filename, in order. -/
theorem processWindows_ok {bucket pb jid : String} {w : World} :
    ∀ {ws : List ItemH} {items : List OutItem} {tr : List Act},
      processWindows bucket pb jid w ws = (.ok items, tr) →
      items.map (fun o => o.key) =
        ws.map (fun it => s3_key pb jid ["clips", fnameOf it]) ∧
      countFfmpeg tr = ws.length := by
  intro ws
  induction ws with
  | nil =>
      intro items tr h
      obtain ⟨h1, h2⟩ := (Prod.mk.injEq ..).mp h
      have h1' : items = [] := ((Except.ok.injEq ..).mp h1).symm
      subst h1'
      have h2' : tr = [] := h2.symm
      subst h2'
      exact ⟨rfl, rfl⟩
  | cons it rest ih =>
      intro items tr h
      unfold processWindows at h
      cases hff : w.ffmpegRun (dstOf it) with
      | error e =>
          rw [hff] at h
          simp at h
      | ok u =>
          rw [hff] at h
          cases hup : w.uploadRun (keyOf pb jid it) with
          | error e =>
              rw [hup] at h
              simp at h
          | ok u2 =>
              rw [hup] at h
              cases hrec : processWindows bucket pb jid w rest with
              | mk r tr' =>
                  rw [hrec] at h
                  cases r with
                  | error e => simp at h
                  | ok items' =>
                      simp only [Prod.mk.injEq, Except.ok.injEq] at h
                      obtain ⟨hitems, htr⟩ := h
                      subst hitems
                      subst htr
                      obtain ⟨hmap, hcount⟩ := ih hrec
                      constructor
                      · simp only [List.map_cons, hmap]
                        rfl
                      · show countFfmpeg (_ :: _ :: tr') = rest.length + 1
                        unfold countFfmpeg at hcount ⊢
                        simp only [List.filter_cons]
                        simpa using hcount

/-- A download step never invokes the encoder. -/
theorem ensureLocalVideo_no_ffmpeg {w : World} {u : String} {r : Except String String}
    {tr : List Act} (h : ensureLocalVideo w u = (r, tr)) : countFfmpeg tr = 0 := by
  unfold ensureLocalVideo at h
  split at h
  · obtain ⟨-, h2⟩ := (Prod.mk.injEq ..).mp h
    rw [← h2]
    rfl
  · split at h
    · obtain ⟨-, h2⟩ := (Prod.mk.injEq ..).mp h
      rw [← h2]
      rfl
    · obtain ⟨-, h2⟩ := (Prod.mk.injEq ..).mp h
      rw [← h2]
      rfl

/-- A successful run of the post-manifest stage is a successful per-window
loop, returning that loop's items under the given job id, and all its encoder
invocations come from that loop. -/
theorem handlerCore_ok {bucket pb : String} {d : EventInput} {jid jid' : String}
    {w : World} {windows : List ItemH} {items : List OutItem} {tr : List Act}
    (h : handlerCore bucket pb d jid w windows = (.ok jid' items, tr)) :
    jid' = jid ∧ ∃ tr3, processWindows bucket pb jid w windows = (.ok items, tr3) ∧
      countFfmpeg tr = countFfmpeg tr3 := by
  unfold handlerCore at h
  split at h
  · split at h
    · simp at h
    · rename_i hel
      split at h
      · rename_i items' tr3 hpw
        simp only [Prod.mk.injEq, Resp.ok.injEq] at h
        obtain ⟨⟨hjid, hitems⟩, htr⟩ := h
        subst hjid
        subst hitems
        subst htr
        refine ⟨rfl, tr3, hpw, ?_⟩
        show countFfmpeg (.actFetchManifest :: (_ ++ tr3)) = countFfmpeg tr3
        unfold countFfmpeg
        simp only [List.filter_cons, List.filter_append, List.length_append]
        have := ensureLocalVideo_no_ffmpeg hel
        unfold countFfmpeg at this
        simp [this]
      · simp at h
  · split at h
    · split at h
      · rename_i items' tr3 hpw
        simp only [Prod.mk.injEq, Resp.ok.injEq] at h
        obtain ⟨⟨hjid, hitems⟩, htr⟩ := h
        subst hjid
        subst hitems
        subst htr
        refine ⟨rfl, tr3, hpw, ?_⟩
        show countFfmpeg (.actFetchManifest :: tr3) = countFfmpeg tr3
        rfl
      · simp at h
    · simp at h

/-- A successful handler run is a successful manifest parse followed by a
successful per-window loop on the parsed windows, under the event's job id. -/
theorem handlerM_ok {bucket pb : String} {ev : Event} {w : World} {jid : String}
    {items : List OutItem} {tr : List Act}
    (h : handlerM bucket pb ev w = (.ok jid items, tr)) :
    jid = jobIdOf ev ∧
    ∃ (m : Manifest) (ws : List ItemH) (tr3 : List Act),
      w.fetchManifest = .ok m ∧ load_clips_config_parse m = .ok ws ∧
      processWindows bucket pb jid w ws = (.ok items, tr3) ∧
      countFfmpeg tr = countFfmpeg tr3 := by
  unfold handlerM at h
  split at h
  · simp at h
  · unfold afterManifest at h
    split at h
    · simp at h
    · rename_i m hm
      unfold afterParse at h
      split at h
      · simp at h
      · rename_i ws hws
        obtain ⟨hjid, tr3, hpw, hcnt⟩ := handlerCore_ok h
        subst hjid
        exact ⟨rfl, m, ws, tr3, hm, hws, hpw, hcnt⟩

/-! ### Lemmas: timecode strings -/

theorem removeFirstDot_id : ∀ {l : List Char}, (∀ c ∈ l, c ≠ '.') →
    removeFirstDot l = l := by
  intro l
  induction l with
  | nil => intro _; rfl
  | cons d ds ih =>
      intro h
      unfold removeFirstDot
      rw [if_neg (h d (List.mem_cons_self d ds))]
      rw [ih (fun c hc => h c (List.mem_cons_of_mem d hc))]

theorem splitDot_no_dot : ∀ {l : List Char}, (∀ c ∈ l, c ≠ '.') →
    splitDot l = (l, none) := by
  intro l
  induction l with
  | nil => intro _; rfl
  | cons d ds ih =>
      intro h
      unfold splitDot
      rw [if_neg (h d (List.mem_cons_self d ds))]
      rw [ih (fun c hc => h c (List.mem_cons_of_mem d hc))]

theorem splitOnColon_no_colon : ∀ {l : List Char}, (∀ c ∈ l, c ≠ ':') →
    splitOnColon l = [l] := by
  intro l
  induction l with
  | nil => intro _; rfl
  | cons a as ih =>
      intro h
      have e : splitOnColon (a :: as) =
          (if a = ':' then [] :: splitOnColon as
           else match splitOnColon as with
                | b :: rest => (a :: b) :: rest
                | [] => [[a]]) := rfl
      rw [e, if_neg (h a (List.mem_cons_self a as)),
        ih (fun c hc => h c (List.mem_cons_of_mem a hc))]

theorem splitOnColon_split : ∀ (A R : List Char), (∀ c ∈ A, c ≠ ':') →
    splitOnColon (A ++ ':' :: R) = A :: splitOnColon R := by
  intro A
  induction A with
  | nil =>
      intro R _
      show splitOnColon (':' :: R) = [] :: splitOnColon R
      rfl
  | cons a as ih =>
      intro R h
      show splitOnColon (a :: (as ++ ':' :: R)) = (a :: as) :: splitOnColon R
      have e : splitOnColon (a :: (as ++ ':' :: R)) =
          (if a = ':' then [] :: splitOnColon (as ++ ':' :: R)
           else match splitOnColon (as ++ ':' :: R) with
                | b :: rest => (a :: b) :: rest
                | [] => [[a]]) := rfl
      rw [e, if_neg (h a (List.mem_cons_self a as)),
        ih R (fun c hc => h c (List.mem_cons_of_mem a hc))]

theorem digitsAux_lt10 {fuel n : Nat} (h1 : 0 < n) (h2 : n < 10) (h3 : n ≤ fuel) :
    digitsAux fuel n = [digitCh n] := by
  cases fuel with
  | zero => exact absurd h3 (by omega)
  | succ f =>
      cases n with
      | zero => exact absurd h1 (by omega)
      | succ m =>
          show digitCh ((m + 1) % 10) :: digitsAux f ((m + 1) / 10) = [digitCh (m + 1)]
          have e1 : (m + 1) % 10 = m + 1 := Nat.mod_eq_of_lt h2
          have e2 : (m + 1) / 10 = 0 := Nat.div_eq_of_lt h2
          rw [e1, e2]
          cases f <;> rfl

theorem natReprL_lt10 {n : Nat} (h : n < 10) : natReprL n = [digitCh n] := by
  unfold natReprL
  by_cases h0 : n = 0
  · subst h0
    rw [if_pos rfl]
    decide
  · rw [if_neg h0, digitsAux_lt10 (Nat.pos_of_ne_zero h0) h le_rfl]
    rfl

theorem natReprL_two {n : Nat} (h1 : 10 ≤ n) (h2 : n ≤ 99) :
    natReprL n = [digitCh (n / 10), digitCh (n % 10)] := by
  unfold natReprL
  rw [if_neg (by omega)]
  obtain ⟨m, rfl⟩ : ∃ m, n = m + 1 := ⟨n - 1, by omega⟩
  show (digitCh ((m + 1) % 10) :: digitsAux m ((m + 1) / 10)).reverse = _
  have hq1 : 0 < (m + 1) / 10 := by omega
  have hq2 : (m + 1) / 10 < 10 := by omega
  have hq3 : (m + 1) / 10 ≤ m := by omega
  rw [digitsAux_lt10 hq1 hq2 hq3]
  rfl

theorem mmOK_natReprL {m : Nat} (h : m ≤ 59) : mmOK (natReprL m) = true := by
  by_cases hm : m < 10
  · rw [natReprL_lt10 hm]
    show isDigitCh (digitCh m) = true
    exact isDigitCh_digitCh m (by omega)
  · rw [natReprL_two (by omega) (by omega)]
    have hd1 : ('0' ≤ digitCh (m / 10) && digitCh (m / 10) ≤ '5') = true := by
      have h5 : ∀ d, d ≤ 5 → ('0' ≤ digitCh d && digitCh d ≤ '5') = true := by decide
      exact h5 (m / 10) (by omega)
    have hd2 : isDigitCh (digitCh (m % 10)) = true := isDigitCh_digitCh _ (by omega)
    show (('0' ≤ digitCh (m / 10) && digitCh (m / 10) ≤ '5') &&
      isDigitCh (digitCh (m % 10))) = true
    rw [hd1, hd2]
    rfl

theorem hOK_natReprL (n : Nat) : hOK (natReprL n) = true := by
  unfold hOK
  have h1 : (natReprL n).isEmpty = false := by
    cases hnr : natReprL n with
    | nil => exact absurd hnr (natReprL_ne_nil n)
    | cons a as => rfl
  rw [h1]
  have h2 : (natReprL n).all isDigitCh = true :=
    List.all_eq_true.mpr (fun c hc => natReprL_all_digits hc)
  rw [h2]
  rfl

theorem ssParse_natReprL {s : Nat} (h : s ≤ 59) : ssParse (natReprL s) = some (s : ℚ) := by
  unfold ssParse
  rw [splitDot_no_dot (fun c hc => bool_pred_ne (natReprL_all_digits hc) (by decide))]
  show (if mmOK (natReprL s) then some ((valBE (natReprL s) : ℚ)) else none) = some (s : ℚ)
  rw [mmOK_natReprL h, if_pos rfl, valBE_natReprL]

theorem wsChar_digit {c : Char} (hc : isDigitCh c = true) : wsChar c = false := by
  unfold wsChar
  have h1 : c ≠ ' ' := bool_pred_ne hc (by decide)
  have h2 : c ≠ '\t' := bool_pred_ne hc (by decide)
  have h3 : c ≠ '\n' := bool_pred_ne hc (by decide)
  have h4 : c ≠ '\r' := bool_pred_ne hc (by decide)
  have h5 : c ≠ Char.ofNat 11 := bool_pred_ne hc (by decide)
  have h6 : c ≠ Char.ofNat 12 := bool_pred_ne hc (by decide)
  simp [h1, h2, h3, h4, h5, h6]

theorem pyStripL_id {l : List Char} (h : ∀ c ∈ l, wsChar c = false) : pyStripL l = l := by
  unfold pyStripL
  rw [dropWhile_eq_self h]
  exact dropEnd_eq_self h

theorem isPlainNumL_digits {l : List Char} (hne : l ≠ [])
    (hd : ∀ c ∈ l, isDigitCh c = true) : isPlainNumL l = true := by
  unfold isPlainNumL
  rw [removeFirstDot_id (fun c hc => bool_pred_ne (hd c hc) (by decide))]
  unfold isdigitL
  have h1 : l.isEmpty = false := by
    cases l with
    | nil => exact absurd rfl hne
    | cons a as => rfl
  rw [h1, List.all_eq_true.mpr hd]
  rfl

theorem isPlainNumL_colon {l : List Char} (hc : ':' ∈ l) (hnd : ∀ c ∈ l, c ≠ '.') :
    isPlainNumL l = false := by
  unfold isPlainNumL
  rw [removeFirstDot_id hnd]
  unfold isdigitL
  have : l.all isDigitCh = false := by
    rcases hall : l.all isDigitCh with _ | _
    · rfl
    · exact absurd (List.all_eq_true.mp hall ':' hc) (by decide)
  rw [this]
  simp

/-- The string Python produces for `f"{n}"`. -/
def natStrS (n : Nat) : String := String.mk (natReprL n)

/-- The string Python produces for `f"{h}:{m}:{s}"`. -/
def fmtHMS (h m s : Nat) : String :=
  String.mk (natReprL h ++ ':' :: (natReprL m ++ ':' :: natReprL s))

theorem natReprL_ne_colon {n : Nat} {c : Char} (hc : c ∈ natReprL n) : c ≠ ':' :=
  bool_pred_ne (natReprL_all_digits hc) (by decide)

theorem timeMatch_fmt {h m s : Nat} (hm : m ≤ 59) (hs : s ≤ 59) :
    timeMatch (natReprL h ++ ':' :: (natReprL m ++ ':' :: natReprL s)) =
      some ((valBE (natReprL h) : ℚ) * 3600 + (valBE (natReprL m) : ℚ) * 60 + (s : ℚ)) := by
  unfold timeMatch
  rw [splitOnColon_split _ _ (fun c hc => natReprL_ne_colon hc),
    splitOnColon_split _ _ (fun c hc => natReprL_ne_colon hc),
    splitOnColon_no_colon (fun c hc => natReprL_ne_colon hc)]
  show (if hOK (natReprL h) && mmOK (natReprL m) then
      (ssParse (natReprL s)).map
        (fun sq => (valBE (natReprL h) : ℚ) * 3600 + (valBE (natReprL m) : ℚ) * 60 + sq)
    else none) = _
  rw [hOK_natReprL h, mmOK_natReprL hm, ssParse_natReprL hs]
  rfl

/-- Unfolding equation of `parse_timecode` on a string value. -/
theorem parse_timecode_str (t : String) :
    parse_timecode (some (.str t)) =
      (if isPlainNumL (pyStripL t.data) then Except.ok (plainValL (pyStripL t.data))
       else
         match timeMatch (pyStripL t.data) with
         | some q => Except.ok q
         | none => Except.error ("Unrecognized time format: " ++ t)) := rfl

/-- A fatal parse: the string is neither a plain number nor a timecode. -/
theorem parse_timecode_fail {t : String} (h1 : isPlainNumL (pyStripL t.data) = false)
    (h2 : timeMatch (pyStripL t.data) = none) :
    parse_timecode (some (.str t)) = .error ("Unrecognized time format: " ++ t) := by
  rw [parse_timecode_str, h1, h2]
  rfl

theorem parse_timecode_natStr (n : Nat) :
    parse_timecode (some (.str (natStrS n))) = .ok (n : ℚ) := by
  rw [parse_timecode_str]
  have hdata : (natStrS n).data = natReprL n := rfl
  rw [hdata, pyStripL_id (fun c hc => wsChar_digit (natReprL_all_digits hc)),
    isPlainNumL_digits (natReprL_ne_nil n) (fun c hc => natReprL_all_digits hc)]
  show Except.ok (plainValL (natReprL n)) = .ok (n : ℚ)
  unfold plainValL
  rw [splitDot_no_dot (fun c hc => bool_pred_ne (natReprL_all_digits hc) (by decide))]
  show Except.ok ((valBE (natReprL n) : ℚ)) = _
  rw [valBE_natReprL]

theorem parse_timecode_hms {h m s : Nat} (hm : m ≤ 59) (hs : s ≤ 59) :
    parse_timecode (some (.str (fmtHMS h m s))) = .ok ((h * 3600 + m * 60 + s : ℕ) : ℚ) := by
  rw [parse_timecode_str]
  have hdata : (fmtHMS h m s).data = natReprL h ++ ':' :: (natReprL m ++ ':' :: natReprL s) :=
    rfl
  have hmem : ∀ c ∈ (fmtHMS h m s).data, isDigitCh c = true ∨ c = ':' := by
    intro c hc
    rw [hdata] at hc
    rcases List.mem_append.mp hc with h1 | h1
    · exact Or.inl (natReprL_all_digits h1)
    · rcases List.mem_cons.mp h1 with rfl | h2
      · exact Or.inr rfl
      · rcases List.mem_append.mp h2 with h3 | h3
        · exact Or.inl (natReprL_all_digits h3)
        · rcases List.mem_cons.mp h3 with rfl | h4
          · exact Or.inr rfl
          · exact Or.inl (natReprL_all_digits h4)
  have hws : ∀ c ∈ (fmtHMS h m s).data, wsChar c = false := by
    intro c hc
    rcases hmem c hc with hd | rfl
    · exact wsChar_digit hd
    · decide
  have hnd : ∀ c ∈ (fmtHMS h m s).data, c ≠ '.' := by
    intro c hc
    rcases hmem c hc with hd | rfl
    · exact bool_pred_ne hd (by decide)
    · decide
  have hcolon : ':' ∈ (fmtHMS h m s).data := by
    rw [hdata]
    exact List.mem_append.mpr (Or.inr (List.mem_cons_self _ _))
  rw [pyStripL_id hws, isPlainNumL_colon hcolon hnd, hdata, timeMatch_fmt hm hs]
  show Except.ok ((valBE (natReprL h) : ℚ) * 3600 + (valBE (natReprL m) : ℚ) * 60 + (s : ℚ)) = _
  rw [valBE_natReprL, valBE_natReprL]
  push_cast
  ring_nf

/-! ### Claims -/

/-- C7: for every pair of distinct windows in the same job, the two output
storage keys (hence filenames) differ, even when the windows' titles are
identical, because the window's unique index is embedded in the filename. -/
theorem C7_distinct_keys {bucket pb : String} {ev : Event} {w : World}
    {jid : String} {items : List OutItem} {tr : List Act}
    (hrun : handlerM bucket pb ev w = (.ok jid items, tr))
    (i j : Nat) (hi : i < items.length) (hj : j < items.length) (hne : i ≠ j) :
    (items.get ⟨i, hi⟩).key ≠ (items.get ⟨j, hj⟩).key := by
  obtain ⟨-, m, ws, tr3, hm, hws, hpw, -⟩ := handlerM_ok hrun
  obtain ⟨hmap, -⟩ := processWindows_ok hpw
  obtain ⟨cs, -, hnorm, -⟩ := load_clips_config_parse_ok hws
  have hpair := normAuxH_pairwise cs 1 ws hnorm
  have hlen : items.length = ws.length := by
    have := congrArg List.length hmap
    simpa using this
  have hkey : ∀ (a : Nat) (ha : a < items.length),
      (items.get ⟨a, ha⟩).key =
        s3_key pb jid ["clips", fnameOf (ws.get ⟨a, by omega⟩)] := by
    intro a ha
    have h1 := List.get_of_eq hmap ⟨a, by simpa using ha⟩
    simp only [List.get_map] at h1
    exact h1
  have hidx : (ws.get ⟨i, by omega⟩).idx ≠ (ws.get ⟨j, by omega⟩).idx := by
    rcases Nat.lt_or_ge i j with hij | hij
    · exact Nat.ne_of_lt (List.pairwise_iff_get.mp hpair ⟨i, by omega⟩ ⟨j, by omega⟩ hij)
    · have hji : j < i := by omega
      exact (Nat.ne_of_lt
        (List.pairwise_iff_get.mp hpair ⟨j, by omega⟩ ⟨i, by omega⟩ hji)).symm
  intro hkeyeq
  rw [hkey i hi, hkey j hj] at hkeyeq
  rw [s3_key_clips (fnameOf_ne_empty _) (fun c hc => fnameOf_chars hc),
    s3_key_clips (fnameOf_ne_empty _) (fun c hc => fnameOf_chars hc)] at hkeyeq
  exact fnameOf_inj hidx (string_append_cancel_left hkeyeq)

theorem outItemOf_indep {bucket pb jid : String} {w w' : World}
    (hps : w.presignUrl = w'.presignUrl) (it : ItemH) :
    outItemOf bucket pb jid w it = outItemOf bucket pb jid w' it := by
  unfold outItemOf
  rw [hps]

/-- The per-window loop reads only the encoder, upload, and presign oracles. -/
theorem processWindows_world_indep {bucket pb jid : String} {w w' : World}
    (hff : w.ffmpegRun = w'.ffmpegRun) (hup : w.uploadRun = w'.uploadRun)
    (hps : w.presignUrl = w'.presignUrl) :
    ∀ ws, processWindows bucket pb jid w ws = processWindows bucket pb jid w' ws := by
  intro ws
  induction ws with
  | nil => rfl
  | cons it rest ih =>
      show processWindows bucket pb jid w (it :: rest) =
        processWindows bucket pb jid w' (it :: rest)
      unfold processWindows
      rw [hff, hup, ih]
      simp only [outItemOf_indep hps]

theorem ensureLocalVideo_world_indep {w w' : World} (hv : w.fetchVideo = w'.fetchVideo)
    (u : String) : ensureLocalVideo w u = ensureLocalVideo w' u := by
  unfold ensureLocalVideo
  rw [hv]

/-- The post-manifest stage reads the input only through its four
video-source fields and the world only through its download, encoder,
upload, and presign oracles — in particular, neither the `reextract` field
nor the file-existence oracle can influence it. -/
theorem handlerCore_indep {bucket pb jid : String} {d d' : EventInput} {w w' : World}
    (h1 : d.video_url = d'.video_url) (h2 : d.input_video_url = d'.input_video_url)
    (h3 : d.video_path = d'.video_path) (h4 : d.input_video_local = d'.input_video_local)
    (hv : w.fetchVideo = w'.fetchVideo) (hff : w.ffmpegRun = w'.ffmpegRun)
    (hup : w.uploadRun = w'.uploadRun) (hps : w.presignUrl = w'.presignUrl)
    (ws : List ItemH) :
    handlerCore bucket pb d jid w ws = handlerCore bucket pb d' jid w' ws := by
  unfold handlerCore
  rw [h1, h2, h3, h4, ensureLocalVideo_world_indep hv,
    processWindows_world_indep hff hup hps ws]

/-- The event with its `reextract` field replaced. -/
def setReextract : Event → Option Bool → Event
  | .dict (some d), r => .dict (some { d with reextract := r })
  | e, _ => e

set_option maxHeartbeats 1000000 in
/-- The full handler reads the world only through the five oracles other
than file existence. -/
theorem handlerM_world_indep {bucket pb : String} {ev : Event} {w w' : World}
    (hm : w.fetchManifest = w'.fetchManifest) (hv : w.fetchVideo = w'.fetchVideo)
    (hff : w.ffmpegRun = w'.ffmpegRun) (hup : w.uploadRun = w'.uploadRun)
    (hps : w.presignUrl = w'.presignUrl) :
    handlerM bucket pb ev w = handlerM bucket pb ev w' := by
  have hparse : ∀ r, afterParse bucket pb ev w r = afterParse bucket pb ev w' r := by
    intro r
    cases r with
    | error e => rfl
    | ok ws =>
        show handlerCore bucket pb (eventData ev) (jobIdOf ev) w ws =
          handlerCore bucket pb (eventData ev) (jobIdOf ev) w' ws
        exact handlerCore_indep rfl rfl rfl rfl hv hff hup hps ws
  have hafter : ∀ r, afterManifest bucket pb ev w r = afterManifest bucket pb ev w' r := by
    intro r
    cases r with
    | error e => rfl
    | ok m =>
        show afterParse bucket pb ev w (load_clips_config_parse m) =
          afterParse bucket pb ev w' (load_clips_config_parse m)
        exact hparse _
  unfold handlerM
  rw [hm, hafter w'.fetchManifest]

set_option maxHeartbeats 1000000 in
/-- The full handler never reads the `reextract` field. -/
theorem handlerM_reextract_indep (bucket pb : String) (ev : Event) (w : World)
    (r : Option Bool) :
    handlerM bucket pb (setReextract ev r) w = handlerM bucket pb ev w := by
  unfold handlerM
  have hjid : jobIdOf (setReextract ev r) = jobIdOf ev := by
    cases ev with
    | notDict => rfl
    | dict o =>
        cases o with
        | none => rfl
        | some d => rfl
  have hparse : ∀ x, afterParse bucket pb (setReextract ev r) w x =
      afterParse bucket pb ev w x := by
    intro x
    cases x with
    | error e => rfl
    | ok ws =>
        show handlerCore bucket pb (eventData (setReextract ev r))
            (jobIdOf (setReextract ev r)) w ws =
          handlerCore bucket pb (eventData ev) (jobIdOf ev) w ws
        rw [hjid]
        cases ev with
        | notDict => rfl
        | dict o =>
            cases o with
            | none => rfl
            | some d =>
                cases d
                refine handlerCore_indep ?_ ?_ ?_ ?_ ?_ ?_ ?_ ?_ ws <;> rfl
  have hafter : ∀ x, afterManifest bucket pb (setReextract ev r) w x =
      afterManifest bucket pb ev w x := by
    intro x
    cases x with
    | error e => rfl
    | ok m =>
        show afterParse bucket pb (setReextract ev r) w (load_clips_config_parse m) =
          afterParse bucket pb ev w (load_clips_config_parse m)
        exact hparse _
  rw [hjid, hafter w.fetchManifest]

/-- C1 (counterexample): a full re-run of an already-completed job — every
destination file exists and `reextract` is false — still issues one encoder
invocation for its one window, not zero, and the output item carries no
`skipped` marker (the payload shape has none). -/
theorem C1_counterexample :
    handlerM "b" "jobs"
      (.dict (some { job_id := some "j1", video_path := some "/v.mp4",
                     reextract := some false }))
      { fetchManifest := .ok (.arr [{ start := some (.num 1), end_ := some (.num 2) }]),
        fetchVideo := .ok (), fileExists := fun _ => true,
        ffmpegRun := fun _ => .ok (), uploadRun := fun _ => .ok (),
        presignUrl := fun _ => "https://presigned" } =
      (.ok "j1" [{ index := 1, title := "clip001", start := 1, end_ := 2,
                   key := "jobs/j1/clips/clip001-001.mp4", url := "https://presigned",
                   s3_uri := "s3://b/jobs/j1/clips/clip001-001.mp4" }],
       [.actFetchManifest, .actFfmpeg "/tmp/clip001-001.mp4",
        .actUpload "jobs/j1/clips/clip001-001.mp4"]) ∧
    countFfmpeg [.actFetchManifest, .actFfmpeg "/tmp/clip001-001.mp4",
        .actUpload "jobs/j1/clips/clip001-001.mp4"] = 1 :=
  ⟨by with_unfolding_all rfl, by decide⟩

/-- C1 (amended): the handler has no skip-if-exists logic at all — its result
and trace are independent of which destination files exist and of the
`reextract` field, and every successful run invokes the encoder exactly once
per reported clip. -/
theorem C1_amended : ∀ (bucket pb : String) (ev : Event) (w : World)
    (f : String → Bool) (r : Option Bool),
    handlerM bucket pb ev { w with fileExists := f } = handlerM bucket pb ev w ∧
    handlerM bucket pb (setReextract ev r) w = handlerM bucket pb ev w ∧
    (∀ jid items tr, handlerM bucket pb ev w = (.ok jid items, tr) →
      countFfmpeg tr = items.length) := by
  intro bucket pb ev w f r
  refine ⟨?_, handlerM_reextract_indep bucket pb ev w r, ?_⟩
  · cases w
    refine handlerM_world_indep ?_ ?_ ?_ ?_ ?_ <;> rfl
  · intro jid items tr h
    obtain ⟨-, m, ws, tr3, -, hws, hpw, hcnt⟩ := handlerM_ok h
    obtain ⟨hmap, hcount⟩ := processWindows_ok hpw
    have hlen : items.length = ws.length := by
      have := congrArg List.length hmap
      simpa using this
    rw [hcnt, hcount, hlen]

/-- C1 (witness): the amended theorem at a concrete completed job. -/
theorem C1_witness :
    handlerM "b" "jobs"
      (.dict (some { job_id := some "j9", video_path := some "/v.mp4" }))
      { fetchManifest := .ok (.arr [{ start := some (.num 1), end_ := some (.num 2) }]),
        fetchVideo := .ok (), fileExists := fun _ => true,
        ffmpegRun := fun _ => .ok (), uploadRun := fun _ => .ok (),
        presignUrl := fun _ => "u" } =
      (.ok "j9" [{ index := 1, title := "clip001", start := 1, end_ := 2,
                   key := "jobs/j9/clips/clip001-001.mp4", url := "u",
                   s3_uri := "s3://b/jobs/j9/clips/clip001-001.mp4" }],
       [.actFetchManifest, .actFfmpeg "/tmp/clip001-001.mp4",
        .actUpload "jobs/j9/clips/clip001-001.mp4"]) ∧
    countFfmpeg [.actFetchManifest, .actFfmpeg "/tmp/clip001-001.mp4",
        .actUpload "jobs/j9/clips/clip001-001.mp4"] =
      [({ index := 1, title := "clip001", start := 1, end_ := 2,
          key := "jobs/j9/clips/clip001-001.mp4", url := "u",
          s3_uri := "s3://b/jobs/j9/clips/clip001-001.mp4" } : OutItem)].length := by
  have hrun : handlerM "b" "jobs"
      (.dict (some { job_id := some "j9", video_path := some "/v.mp4" }))
      { fetchManifest := .ok (.arr [{ start := some (.num 1), end_ := some (.num 2) }]),
        fetchVideo := .ok (), fileExists := fun _ => true,
        ffmpegRun := fun _ => .ok (), uploadRun := fun _ => .ok (),
        presignUrl := fun _ => "u" } =
      (.ok "j9" [{ index := 1, title := "clip001", start := 1, end_ := 2,
                   key := "jobs/j9/clips/clip001-001.mp4", url := "u",
                   s3_uri := "s3://b/jobs/j9/clips/clip001-001.mp4" }],
       [.actFetchManifest, .actFfmpeg "/tmp/clip001-001.mp4",
        .actUpload "jobs/j9/clips/clip001-001.mp4"]) := by with_unfolding_all rfl
  exact ⟨hrun,
    (C1_amended "b" "jobs" _ _ (fun _ => true) (some false)).2.2 _ _ _ hrun⟩

/-- C2: the timecode parser casts numbers to float, reads plain decimal
strings as seconds, computes `[hh:]mm:ss[.fraction]` strings (minutes and
seconds 0-59) as `h*3600 + m*60 + s`, and fails on anything else with the
offending value in the message — with the specification's three examples. -/
theorem C2_parse_timecode :
    (∀ q : ℚ, parse_timecode (some (.num q)) = .ok q) ∧
    (∀ n : Nat, parse_timecode (some (.str (natStrS n))) = .ok (n : ℚ)) ∧
    (∀ h m s : Nat, m ≤ 59 → s ≤ 59 →
      parse_timecode (some (.str (fmtHMS h m s))) = .ok ((h * 3600 + m * 60 + s : ℕ) : ℚ)) ∧
    (∀ t : String, isPlainNumL (pyStripL t.data) = false →
      timeMatch (pyStripL t.data) = none →
      parse_timecode (some (.str t)) = .error ("Unrecognized time format: " ++ t)) ∧
    parse_timecode (some (.str "01:02:03.5")) = .ok (3723.5 : ℚ) ∧
    parse_timecode (some (.num 5)) = .ok 5 ∧
    parse_timecode (some (.str "3.5")) = .ok (3.5 : ℚ) ∧
    parse_timecode (some (.str "bogus")) = .error "Unrecognized time format: bogus" := by
  refine ⟨fun q => rfl, parse_timecode_natStr,
    fun h m s hm hs => parse_timecode_hms hm hs,
    fun t h1 h2 => parse_timecode_fail h1 h2, ?_, rfl, ?_, ?_⟩
  · with_unfolding_all rfl
  · with_unfolding_all rfl
  · with_unfolding_all rfl

/-- C2 (witness): the format law at `1:2:3` and the failure law at `"zz"`. -/
theorem C2_witness :
    parse_timecode (some (.str (fmtHMS 1 2 3))) = .ok ((1 * 3600 + 2 * 60 + 3 : ℕ) : ℚ) ∧
    parse_timecode (some (.str "zz")) = .error "Unrecognized time format: zz" :=
  ⟨C2_parse_timecode.2.2.1 1 2 3 (by decide) (by decide),
   C2_parse_timecode.2.2.2.1 "zz" (by decide) (by with_unfolding_all rfl)⟩

/-- C3: evaluating the manifest of the specification's end-to-end test,
`[{"start":0,"end":10},{"start":10,"duration":10}]`, the handler's loader
drops the first entry — `start=0` is falsy in the `or` alias chain — and
returns a single window with index 2 instead of the two windows the
specification requires. -/
theorem C3_zero_start_dropped :
    load_clips_config_parse
      (.arr [{ start := some (.num 0), end_ := some (.num 10) },
             { start := some (.num 10), duration := some (.num 10) }]) =
      .ok [{ idx := 2, title := "clip002", start := 10, end_ := 20 }] := by
  with_unfolding_all rfl

/-- C4 (counterexample): for the manifest `{"clips":[]}` — zero valid windows —
the utils variant of the manifest loader returns the empty list instead of
failing; only the handler's variant fails. -/
theorem C4_counterexample :
    load_clips_from_json (.objClips []) = .ok ([] : List ItemU) ∧
    load_clips_config_parse (.objClips []) =
      .error "No valid clips found in clips.json" :=
  ⟨by with_unfolding_all rfl, by with_unfolding_all rfl⟩

/-- C4 (amended): the handler's manifest loader fails with the empty-manifest
error whenever normalization leaves zero valid windows; the utils variant
instead returns the empty list. -/
theorem C4_amended : ∀ (m : Manifest) (cs : List RawClip),
    extractClips m = .ok cs → normAuxH 1 cs = .ok [] →
    load_clips_config_parse m = .error "No valid clips found in clips.json" := by
  intro m cs h1 h2
  unfold load_clips_config_parse
  rw [h1]
  show (match normAuxH 1 cs with
        | .error er => (.error er : Except String (List ItemH))
        | .ok norm =>
            if norm = [] then .error "No valid clips found in clips.json"
            else .ok norm) = .error "No valid clips found in clips.json"
  rw [h2]
  rfl

/-- C4 (witness): the amended theorem at `{"clips":[]}`. -/
theorem C4_witness :
    extractClips (.objClips []) = .ok [] ∧
    normAuxH 1 [] = .ok [] ∧
    load_clips_config_parse (.objClips []) =
      .error "No valid clips found in clips.json" :=
  ⟨rfl, rfl, C4_amended (.objClips []) [] rfl rfl⟩

/-- C5: an entry with a start key but no end alias and no duration is
silently dropped by the handler's lenient loader — it contributes nothing
and the rest is processed as if the entry were blank — while the utils
strict loader fails the whole load. -/
theorem C5_strictness : ∀ (cs : List RawClip) (i : Nat) (hi : i < cs.length),
    (cs.get ⟨i, hi⟩).start.isSome = true →
    (cs.get ⟨i, hi⟩).end_ = none → (cs.get ⟨i, hi⟩).end_s = none →
    (cs.get ⟨i, hi⟩).to_ = none → (cs.get ⟨i, hi⟩).duration = none →
    normEntryH (1 + i) (cs.get ⟨i, hi⟩) = .ok none ∧
    normAuxH 1 cs = normAuxH 1 (cs.set i blankClip) ∧
    ∃ msg, load_clips_from_json (.arr cs) = .error msg := by
  intro cs i hi hstart hend hends hto hdur
  refine ⟨normEntryH_dropped hend hends hto hdur,
    normAuxH_set_blank cs 1 i hi (normEntryH_dropped hend hends hto hdur), ?_⟩
  obtain ⟨msg, hmsg⟩ := utilsGo_fails cs 1 (cs.get ⟨i, hi⟩) (cs.get_mem i hi) hend hdur
  refine ⟨msg, ?_⟩
  show utilsGo 1 cs = .error msg
  exact hmsg

/-- C5 (witness): both loaders at the one-entry manifest `[{"start": 5}]`. -/
theorem C5_witness :
    normEntryH 1 ({ start := some (.num 5) } : RawClip) = .ok none ∧
    normAuxH 1 [({ start := some (.num 5) } : RawClip)] =
      normAuxH 1 ([({ start := some (.num 5) } : RawClip)].set 0 blankClip) ∧
    ∃ msg, load_clips_from_json (.arr [({ start := some (.num 5) } : RawClip)]) =
      .error msg := by
  have h := C5_strictness [{ start := some (.num 5) }] 0 (by decide) rfl rfl rfl rfl rfl
  exact ⟨h.1, h.2.1, h.2.2⟩

/-- C6: for every invocation event and environment, the handler returns a
JSON object that is either the success payload or an object with an error
field — no other outcome exists. -/
theorem C6_total_response : ∀ (bucket pb : String) (ev : Event) (w : World),
    (∃ jid items, (handlerM bucket pb ev w).1 = .ok jid items) ∨
    (∃ msg, (handlerM bucket pb ev w).1 = .err msg) := by
  intro bucket pb ev w
  cases h : (handlerM bucket pb ev w).1 with
  | ok jid items => exact Or.inl ⟨jid, items, rfl⟩
  | err msg => exact Or.inr ⟨msg, rfl⟩

/-- C7 (witness): two windows with the identical title `"Quote"` receive
distinct storage keys. -/
theorem C7_witness :
    handlerM "b" "jobs"
      (.dict (some { job_id := some "j1", video_path := some "/v.mp4" }))
      { fetchManifest := .ok (.arr
          [{ start := some (.num 1), end_ := some (.num 2), title := some "Quote" },
           { start := some (.num 3), end_ := some (.num 4), title := some "Quote" }]),
        fetchVideo := .ok (), fileExists := fun _ => true,
        ffmpegRun := fun _ => .ok (), uploadRun := fun _ => .ok (),
        presignUrl := fun _ => "u" } =
      (.ok "j1"
        [{ index := 1, title := "Quote", start := 1, end_ := 2,
           key := "jobs/j1/clips/quote-001.mp4", url := "u",
           s3_uri := "s3://b/jobs/j1/clips/quote-001.mp4" },
         { index := 2, title := "Quote", start := 3, end_ := 4,
           key := "jobs/j1/clips/quote-002.mp4", url := "u",
           s3_uri := "s3://b/jobs/j1/clips/quote-002.mp4" }],
       [.actFetchManifest, .actFfmpeg "/tmp/quote-001.mp4",
        .actUpload "jobs/j1/clips/quote-001.mp4", .actFfmpeg "/tmp/quote-002.mp4",
        .actUpload "jobs/j1/clips/quote-002.mp4"]) ∧
    (([{ index := 1, title := "Quote", start := 1, end_ := 2,
         key := "jobs/j1/clips/quote-001.mp4", url := "u",
         s3_uri := "s3://b/jobs/j1/clips/quote-001.mp4" },
       { index := 2, title := "Quote", start := 3, end_ := 4,
         key := "jobs/j1/clips/quote-002.mp4", url := "u",
         s3_uri := "s3://b/jobs/j1/clips/quote-002.mp4" }] : List OutItem).get
      ⟨0, by decide⟩).key ≠
    (([{ index := 1, title := "Quote", start := 1, end_ := 2,
         key := "jobs/j1/clips/quote-001.mp4", url := "u",
         s3_uri := "s3://b/jobs/j1/clips/quote-001.mp4" },
       { index := 2, title := "Quote", start := 3, end_ := 4,
         key := "jobs/j1/clips/quote-002.mp4", url := "u",
         s3_uri := "s3://b/jobs/j1/clips/quote-002.mp4" }] : List OutItem).get
      ⟨1, by decide⟩).key := by
  have hrun : handlerM "b" "jobs"
      (.dict (some { job_id := some "j1", video_path := some "/v.mp4" }))
      { fetchManifest := .ok (.arr
          [{ start := some (.num 1), end_ := some (.num 2), title := some "Quote" },
           { start := some (.num 3), end_ := some (.num 4), title := some "Quote" }]),
        fetchVideo := .ok (), fileExists := fun _ => true,
        ffmpegRun := fun _ => .ok (), uploadRun := fun _ => .ok (),
        presignUrl := fun _ => "u" } =
      (.ok "j1"
        [{ index := 1, title := "Quote", start := 1, end_ := 2,
           key := "jobs/j1/clips/quote-001.mp4", url := "u",
           s3_uri := "s3://b/jobs/j1/clips/quote-001.mp4" },
         { index := 2, title := "Quote", start := 3, end_ := 4,
           key := "jobs/j1/clips/quote-002.mp4", url := "u",
           s3_uri := "s3://b/jobs/j1/clips/quote-002.mp4" }],
       [.actFetchManifest, .actFfmpeg "/tmp/quote-001.mp4",
        .actUpload "jobs/j1/clips/quote-001.mp4", .actFfmpeg "/tmp/quote-002.mp4",
        .actUpload "jobs/j1/clips/quote-002.mp4"]) := by with_unfolding_all rfl
  exact ⟨hrun, C7_distinct_keys hrun 0 1 (by decide) (by decide) (by decide)⟩

/-- C8: when the fetched manifest parses to a JSON value that is neither an
array nor an object with a clips array, the job fails with the invalid-shape
error, and the source video is never downloaded: the trace holds only the
manifest fetch. -/
theorem C8_invalid_manifest : ∀ (bucket pb : String) (ev : Event) (w : World)
    (m : Manifest),
    jobIdOf ev ≠ "" → w.fetchManifest = .ok m →
    (∀ cs, m ≠ .arr cs) → (∀ cs, m ≠ .objClips cs) →
    handlerM bucket pb ev w =
      (.err "clips.json must be a list or an object with a 'clips' key",
       [.actFetchManifest]) ∧
    Act.actFetchVideo ∉ (handlerM bucket pb ev w).2 := by
  intro bucket pb ev w m hjid hm harr hobj
  have hx : extractClips m =
      .error "clips.json must be a list or an object with a 'clips' key" := by
    cases m with
    | arr cs => exact absurd rfl (harr cs)
    | objClips cs => exact absurd rfl (hobj cs)
    | jstr s => rfl
    | other => rfl
  have hload : load_clips_config_parse m =
      .error "clips.json must be a list or an object with a 'clips' key" := by
    unfold load_clips_config_parse
    rw [hx]
  have hrun : handlerM bucket pb ev w =
      (.err "clips.json must be a list or an object with a 'clips' key",
       [.actFetchManifest]) := by
    unfold handlerM
    rw [if_neg hjid, hm]
    show afterManifest bucket pb ev w (.ok m) = _
    unfold afterManifest
    show afterParse bucket pb ev w (load_clips_config_parse m) = _
    rw [hload]
    rfl
  refine ⟨hrun, ?_⟩
  rw [hrun]
  simp

/-- C8 (witness): a bare-string manifest aborts before any video download. -/
theorem C8_witness :
    handlerM "b" "jobs" (.dict (some { job_id := some "j1" }))
      { fetchManifest := .ok (.jstr "oops"), fetchVideo := .ok (),
        fileExists := fun _ => false, ffmpegRun := fun _ => .ok (),
        uploadRun := fun _ => .ok (), presignUrl := fun _ => "u" } =
      (.err "clips.json must be a list or an object with a 'clips' key",
       [.actFetchManifest]) ∧
    Act.actFetchVideo ∉ (handlerM "b" "jobs" (.dict (some { job_id := some "j1" }))
      { fetchManifest := .ok (.jstr "oops"), fetchVideo := .ok (),
        fileExists := fun _ => false, ffmpegRun := fun _ => .ok (),
        uploadRun := fun _ => .ok (), presignUrl := fun _ => "u" }).2 :=
  C8_invalid_manifest "b" "jobs" _ _ (.jstr "oops") (by decide) rfl
    (fun cs h => Manifest.noConfusion h) (fun cs h => Manifest.noConfusion h)

/-- C9 (counterexample): for the job id `/j\1`, the key the code builds keeps
the job id raw — `jobs//j\1/clips/a.mp4` — while the claimed sanitization
would produce `jobs/j/1/clips/a.mp4`. -/
theorem C9_counterexample :
    s3_key "jobs" "/j\\1" ["clips", "a.mp4"] = "jobs//j\\1/clips/a.mp4" ∧
    s3_key_claimed "jobs" "/j\\1" "a.mp4" = "jobs/j/1/clips/a.mp4" ∧
    s3_key "jobs" "/j\\1" ["clips", "a.mp4"] ≠ s3_key_claimed "jobs" "/j\\1" "a.mp4" :=
  ⟨by decide, by decide, by decide⟩

/-- C9 (amended): on the arguments the handler passes, the storage key is
`{strip(namespace)}/{job_id}/clips/{logical_name}` where only the namespace
is slash-stripped (not backslash-normalized), the job id is inserted raw,
and the logical name — which contains no slash or backslash — passes through
unchanged. -/
theorem C9_amended : ∀ (pb jid nm : String), nm ≠ "" →
    (∀ c ∈ nm.data, c ≠ '/' ∧ c ≠ '\\') →
    s3_key pb jid ["clips", nm] = stripSlashS pb ++ "/" ++ jid ++ "/clips/" ++ nm :=
  fun _ _ _ h1 h2 => s3_key_clips h1 h2

/-- C9 (witness): the amended key equation at concrete arguments. -/
theorem C9_witness :
    ("a.mp4" : String) ≠ "" ∧
    s3_key "jobs" "j1" ["clips", "a.mp4"] =
      stripSlashS "jobs" ++ "/" ++ "j1" ++ "/clips/" ++ "a.mp4" :=
  ⟨by decide, C9_amended "jobs" "j1" "a.mp4" (by decide) (by decide)⟩

/-- C10 (counterexample): truncation to 40 characters can cut right after a
hyphen, so `slugify` of 39 `a`s followed by `-bb` ends in a hyphen,
contradicting the no-trailing-hyphen claim. -/
theorem C10_counterexample :
    slugify "aaaaaaaaaaaaaaaaaaaaaaaaaaaaaaaaaaaaaaa-bb" =
      "aaaaaaaaaaaaaaaaaaaaaaaaaaaaaaaaaaaaaaa-" ∧
    (slugify "aaaaaaaaaaaaaaaaaaaaaaaaaaaaaaaaaaaaaaa-bb").data.getLast? = some '-' :=
  ⟨by decide, by decide⟩

/-- C10 (amended): `slugify` always returns a non-empty string of at most 40
characters over `[a-z0-9-_.]`, with no leading hyphen and no run of
consecutive hyphens, falling back on `"clip"` when nothing safe remains — but
a trailing hyphen can survive the 40-character truncation. -/
theorem C10_amended : ∀ s : String,
    slugify s ≠ "" ∧ (slugify s).length ≤ 40 ∧
    (∀ c ∈ (slugify s).data, isLowerSafe c = true) ∧
    (∀ c t, (slugify s).data = c :: t → c ≠ '-') ∧
    NoHH (slugify s).data ∧
    ((slugifyCore s.data).take 40 = [] → slugify s = "clip") := by
  intro s
  refine ⟨?_, ?_, ?_, ?_, ?_, ?_⟩
  · intro h
    exact slugifyL_ne_nil s.data (congrArg String.data h)
  · exact slugifyL_length s.data
  · exact fun c hc => slugifyL_chars hc
  · exact fun c t h => slugifyL_head h
  · exact slugifyL_noHH s.data
  · intro h
    show String.mk (slugifyL s.data) = "clip"
    unfold slugifyL
    rw [if_pos h]
    decide

/-- C10 (witness): the amended properties at the concrete input `"Ab c"`,
whose slug is `"ab-c"`. -/
theorem C10_witness :
    slugify "Ab c" ≠ "" ∧ isLowerSafe 'a' = true ∧ ('a' : Char) ≠ '-' :=
  ⟨(C10_amended "Ab c").1,
   (C10_amended "Ab c").2.2.1 'a' (by decide),
   (C10_amended "Ab c").2.2.2.1 'a' "b-c".data (by decide)⟩
